import Mathlib

/-!
Shallow embedding of the go_rhapsody board engine and move analyzer
(`src/go_rhapsody/backend/goboard.py` and
`src/go_rhapsody/backend/game_analyzer.py`), together with proofs about
the board invariants and the move classification pipeline.

Conventions of the embedding:

* The Python grid `board[y][x]` (0 empty, 1 black, 2 white) becomes the
  total function `GoBoard.board : Nat → Nat → Nat`, applied as
  `b.board y x`, together with the side length `GoBoard.size`.  Python's
  in-place mutation becomes functional update; coordinates are natural
  numbers (all coordinates produced by the SGF front end are
  non-negative, and the only out-of-bounds condition the code tests is
  the upper bound).

* Python sets are modelled as duplicate-free lists built by the exact
  membership tests the source performs before inserting.  Every property
  proved about them is a membership or cardinality property, which does
  not depend on iteration order (the only aspect CPython leaves
  unspecified).

* Euclidean distances (`math.sqrt` in the source) are represented by
  their squares, which are natural numbers.  The source compares these
  distances only with the constants 2.0, 2.5 and 3.0, and takes minima.
  Since `sqrt` on doubles is correctly rounded and monotone, and is exact
  on the perfect squares 4 and 9, we have `d == 2.0` iff `d² = 4`,
  `d == 3.0` iff `d² = 9`, `d < 2.5` iff `d² ≤ 6` (i.e. `d² < 7`), and
  minima commute with squaring.  The float board centre `(N-1)/2` is
  handled by scaling: four times the squared distance from the centre is
  the integer `(2x-(N-1))² + (2y-(N-1))²`.  Python float truthiness
  (`if dist and ...`) is modelled by the extra `d ≠ 0` test.

* The breadth-first search of `_get_group_and_liberties` is written with
  explicit fuel `size*size + 1`; the adequacy of this fuel on reachable
  states is proved (`bfsLoop_run`), so the fueled function computes the
  same result as the unbounded Python loop.
-/

abbrev Cell := Nat × Nat

/-- `class GoBoard` of `goboard.py`: side length and occupancy grid
(`board[y][x]`, 0 = empty, 1 = black, 2 = white).  The `history` field of
the Python class is write-only there and is omitted. -/
structure GoBoard where
  size : Nat
  board : Nat → Nat → Nat

/-- `GoBoard.__init__`: the all-empty grid. -/
def GoBoard.empty (n : Nat) : GoBoard := ⟨n, fun _ _ => 0⟩

/-- Build a board from a row-major list of rows (row `y`, column `x`),
for concrete test positions. -/
def GoBoard.ofList (rows : List (List Nat)) : GoBoard :=
  ⟨rows.length, fun y x => (rows.getD y []).getD x 0⟩

/-- A single-cell write `board[y][x] = v` as a functional update. -/
def GoBoard.setCell (b : GoBoard) (x y v : Nat) : GoBoard :=
  ⟨b.size, fun j i => if j = y ∧ i = x then v else b.board j i⟩

/-- `GoBoard.get_neighbors`: the in-bounds orthogonal neighbours of
`(x, y)`, in the source's order left, right, up, down. -/
def GoBoard.getNeighbors (b : GoBoard) (x y : Nat) : List Cell :=
  (if 0 < x then [(x - 1, y)] else []) ++
  (if x < b.size - 1 then [(x + 1, y)] else []) ++
  (if 0 < y then [(x, y - 1)] else []) ++
  (if y < b.size - 1 then [(x, y + 1)] else [])

/-- The mutable state of the while-loop of `_get_group_and_liberties`:
the FIFO queue `q`, the `visited` set, the group being collected and its
liberties.  `visited` is a duplicate-free list; `stones` and `libs` stay
duplicate-free automatically because a cell is added to them only in the
step that first adds it to `visited`. -/
structure BfsState where
  q : List Cell
  visited : List Cell
  stones : List Cell
  libs : List Cell

/-- The body of the neighbour loop of `_get_group_and_liberties`: visit
one neighbour `c` of the dequeued stone. -/
def GoBoard.visitCell (b : GoBoard) (player : Nat) (st : BfsState) (c : Cell) : BfsState :=
  if c ∈ st.visited then st
  else if b.board c.2 c.1 = 0 then
    ⟨st.q, c :: st.visited, st.stones, st.libs ++ [c]⟩
  else if b.board c.2 c.1 = player then
    ⟨st.q ++ [c], c :: st.visited, st.stones ++ [c], st.libs⟩
  else
    ⟨st.q, c :: st.visited, st.stones, st.libs⟩

/-- The `while q:` loop of `_get_group_and_liberties`, with fuel. -/
def GoBoard.bfsLoop (b : GoBoard) (player : Nat) : Nat → BfsState → BfsState
  | 0, st => st
  | fuel + 1, st =>
    match st.q with
    | [] => st
    | c :: rest =>
      GoBoard.bfsLoop b player fuel
        ((b.getNeighbors c.1 c.2).foldl (b.visitCell player) ⟨rest, st.visited, st.stones, st.libs⟩)

/-- `GoBoard._get_group_and_liberties(x, y, player, board_state)`:
returns `([], [])` when `(x, y)` is out of bounds or does not hold
`player`; otherwise runs the BFS from `(x, y)`. -/
def GoBoard.getGroupAndLiberties (b : GoBoard) (x y player : Nat) : List Cell × List Cell :=
  if x < b.size ∧ y < b.size ∧ b.board y x = player then
    let st := b.bfsLoop player (b.size * b.size + 1) ⟨[(x, y)], [(x, y)], [(x, y)], []⟩
    (st.stones, st.libs)
  else ([], [])

/-- `GoBoard.get_group`: group, liberties and colour of the stone at
`(x, y)` on the current board (`([], [], 0)` on an empty cell). -/
def GoBoard.getGroup (b : GoBoard) (x y : Nat) : List Cell × List Cell × Nat :=
  let player := b.board y x
  if player = 0 then ([], [], 0)
  else
    let gl := b.getGroupAndLiberties x y player
    (gl.1, gl.2, player)

/-- One `liberties.add(...)` step of `GoBoard.get_liberties_for_stones`:
insert an empty neighbour if not already present (set semantics). -/
def GoBoard.addLiberty (b : GoBoard) (ls : List Cell) (c : Cell) : List Cell :=
  if b.board c.2 c.1 = 0 ∧ c ∉ ls then ls ++ [c] else ls

/-- `GoBoard.get_liberties_for_stones`: the set of empty cells adjacent
to any stone of the given collection. -/
def GoBoard.getLibertiesForStones (b : GoBoard) (stones : List Cell) : List Cell :=
  stones.foldl (fun ls s => (b.getNeighbors s.1 s.2).foldl b.addLiberty ls) []

/-- The per-neighbour contribution inside `GoBoard._get_captured_stones`:
the whole adjacent group when it is an opponent group with no liberties,
`[]` otherwise. -/
def GoBoard.capturedContrib (b : GoBoard) (player : Nat) (c : Cell) : List Cell :=
  if b.board c.2 c.1 = 3 - player then
    let gl := b.getGroupAndLiberties c.1 c.2 (3 - player)
    if gl.2.isEmpty then gl.1 else []
  else []

/-- `GoBoard._get_captured_stones(x, y, player, board_state)`: collect
(`captured_stones.extend(group)`) the adjacent opponent groups that have
no liberties after the stone at `(x, y)` is on the board. -/
def GoBoard.getCapturedStones (b : GoBoard) (x y player : Nat) : List Cell :=
  (b.getNeighbors x y).foldl (fun acc c => acc ++ b.capturedContrib player c) []

/-- `GoBoard.is_valid_move`: bounds, occupancy, and (when nothing is
captured) the suicide check on the temporary board. -/
def GoBoard.isValidMove (b : GoBoard) (x y player : Nat) : Bool :=
  if x < b.size ∧ y < b.size then
    if b.board y x ≠ 0 then false
    else
      let temp := b.setCell x y player
      let captured := temp.getCapturedStones x y player
      if captured ≠ [] then true
      else !(temp.getGroupAndLiberties x y player).2.isEmpty
  else false

/-- Zero out a list of cells (`self.board[cy][cx] = 0` in a loop). -/
def GoBoard.removeStones (b : GoBoard) (cs : List Cell) : GoBoard :=
  cs.foldl (fun bd c => bd.setCell c.1 c.2 0) b

/-- `GoBoard.play_move`: on an invalid move return the board unchanged
and `[]`; otherwise place the stone, compute and remove the captured
stones, and return them. -/
def GoBoard.playMove (b : GoBoard) (x y player : Nat) : GoBoard × List Cell :=
  if b.isValidMove x y player then
    let b1 := b.setCell x y player
    let captured := b1.getCapturedStones x y player
    (b1.removeStones captured, captured)
  else (b, [])

/-- A sequence of `play_move` calls (`x`, `y`, `player`), keeping only
the board. -/
def runMoves (b : GoBoard) (ms : List (Nat × Nat × Nat)) : GoBoard :=
  ms.foldl (fun bd m => (bd.playMove m.1 m.2.1 m.2.2).1) b

namespace GameAnalyzer

/-- Squared Euclidean distance between two grid points
(`distance_between_points` without the final `sqrt`). -/
def distSq (x1 y1 x2 y2 : Nat) : Nat :=
  (((x1 : Int) - x2) ^ 2 + ((y1 : Int) - y2) ^ 2).toNat

/-- `if dist < min_dist: min_dist = dist`, with `None` for the initial
`float('inf')`. -/
def updateMin : Option Nat → Nat → Option Nat
  | none, d => some d
  | some m, d => if d < m then some d else some m

/-- `GameAnalyzer.distance_to_nearest_stones`: scan every cell other
than `(x, y)` and track the minimal squared distance to a friendly and
to an enemy stone (`none` when there is no such stone). -/
def distanceToNearestStonesSq (b : GoBoard) (x y player : Nat) : Option Nat × Option Nat :=
  (List.range b.size).foldl
    (fun acc r =>
      (List.range b.size).foldl
        (fun acc2 c =>
          if (c, r) = (x, y) then acc2
          else
            let stone := b.board r c
            if stone = 0 then acc2
            else
              let d := distSq x y c r
              if stone = player then (updateMin acc2.1 d, acc2.2)
              else if stone = 3 - player then (acc2.1, updateMin acc2.2 d)
              else acc2)
        acc)
    (none, none)

/-- `GameAnalyzer.is_atari`: for each neighbour of the placed stone that
holds the opponent colour on the after board, record that neighbour cell
when its group has exactly one liberty.  (This is per adjacent cell, not
per distinct group.) -/
def isAtari (b : GoBoard) (x y player : Nat) : List Cell :=
  (b.getNeighbors x y).foldl
    (fun acc c =>
      if b.board c.2 c.1 = 3 - player then
        if (b.getGroup c.1 c.2).2.1.length = 1 then acc ++ [c] else acc
      else acc)
    []

/-- `GameAnalyzer.is_contact_move`: some neighbour of the placed stone
held the opponent colour on the before grid. -/
def isContactMove (b : GoBoard) (x y player : Nat) (before : GoBoard) : Bool :=
  (b.getNeighbors x y).any fun c => before.board c.2 c.1 == 3 - player

/-- Equality of stone collections as sets (Python `frozenset` equality
of the group lists). -/
def sameStones (g h : List Cell) : Bool :=
  g.all h.contains && h.all g.contains

/-- Insertion into the `neighboring_enemy_groups` set: skip the group if
an equal frozenset is already present. -/
def insertGroup (gs : List (List Cell)) (g : List Cell) : List (List Cell) :=
  if gs.any (fun h => sameStones h g) then gs else gs ++ [g]

/-- `itertools.combinations(_, 2)`: all unordered pairs, each once. -/
def allPairs {α : Type} : List α → List (α × α)
  | [] => []
  | a :: rest => (rest.map fun c => (a, c)) ++ allPairs rest

/-- `GameAnalyzer.is_cut_move`: the move point was, on the before grid,
the only common liberty of two distinct adjacent enemy groups. -/
def isCutMove (b : GoBoard) (x y player : Nat) (before : GoBoard) : Bool :=
  let tb : GoBoard := ⟨b.size, before.board⟩
  let groups := (b.getNeighbors x y).foldl
    (fun gs c =>
      if before.board c.2 c.1 = 3 - player then insertGroup gs (tb.getGroup c.1 c.2).1
      else gs)
    []
  if groups.length < 2 then false
  else
    (allPairs groups).any fun gg =>
      let libs1 := tb.getLibertiesForStones gg.1
      let libs2 := tb.getLibertiesForStones gg.2
      let common := libs1.filter libs2.contains
      common.contains (x, y) && common.all (· == (x, y))

/-- `GameAnalyzer.is_connection_move`: at least two adjacent friendly
stones on the before grid, not all in one group before the move, and all
in the new stone's group after it. -/
def isConnectionMove (b : GoBoard) (x y player : Nat) (before : GoBoard) : Bool :=
  let adjacentFriends := (b.getNeighbors x y).filter fun c => before.board c.2 c.1 == player
  if adjacentFriends.length < 2 then false
  else
    match adjacentFriends with
    | [] => false
    | f :: rest =>
      let tb : GoBoard := ⟨b.size, before.board⟩
      let firstGroup := (tb.getGroup f.1 f.2).1
      if rest.any fun c => !(firstGroup.contains c) then
        let newGroup := (b.getGroup x y).1
        adjacentFriends.all newGroup.contains
      else false

/-- `GameAnalyzer.detect_atari_threat`: when the placed stone's own
group has exactly two liberties, list those liberties at which an
opponent stone would leave the group exactly one liberty. -/
def detectAtariThreat (b : GoBoard) (x y player : Nat) : List Cell :=
  let libs := (b.getGroup x y).2.1
  if libs.length ≠ 2 then []
  else
    libs.foldl
      (fun acc l =>
        let b' := b.setCell l.1 l.2 (3 - player)
        if (b'.getGroup x y).2.1.length = 1 then acc ++ [l] else acc)
      []

/-- `GameAnalyzer.detect_ko`: stubbed to `False` in the source. -/
def detectKo (_b : GoBoard) (_x _y _player : Nat) : Bool := false

/-- `GameAnalyzer.is_corner_play`: the move lies in one of the four
4×4-ish corner windows (`corner_boundary = 4`; the lower comparisons
against possibly negative `size - 1 - 4` agree with the truncated
natural subtraction for every `x, y ≥ 0`). -/
def isCornerPlay (n x y : Nat) : Bool :=
  decide ((x ≤ 4 ∧ y ≤ 4) ∨
    (n - 1 - 4 ≤ x ∧ x < n ∧ y ≤ 4) ∨
    (x ≤ 4 ∧ n - 1 - 4 ≤ y ∧ y < n) ∨
    (n - 1 - 4 ≤ x ∧ x < n ∧ n - 1 - 4 ≤ y ∧ y < n))

/-- `GameAnalyzer.is_small_night`: 19×19 only; distance to the nearest
friendly stone truthy and `< 2.5` (squared: nonzero and `< 7`). -/
def isSmallNight (n : Nat) (b : GoBoard) (x y player : Nat) : Option String :=
  if n ≠ 19 then none
  else
    match (distanceToNearestStonesSq b x y player).1 with
    | none => none
    | some d => if d ≠ 0 ∧ d < 7 then some "Small Knight" else none

/-- `GameAnalyzer.is_one_space_jump`: 19×19 only; distance exactly 2.0
(squared: 4). -/
def isOneSpaceJump (n : Nat) (b : GoBoard) (x y player : Nat) : Option String :=
  if n ≠ 19 then none
  else
    match (distanceToNearestStonesSq b x y player).1 with
    | none => none
    | some d => if d ≠ 0 ∧ d = 4 then some "One space jump" else none

/-- `GameAnalyzer.is_two_space_jump`: 19×19 only; distance exactly 3.0
(squared: 9). -/
def isTwoSpaceJump (n : Nat) (b : GoBoard) (x y player : Nat) : Option String :=
  if n ≠ 19 then none
  else
    match (distanceToNearestStonesSq b x y player).1 with
    | none => none
    | some d => if d ≠ 0 ∧ d = 9 then some "Two space jump" else none

/-- `GameAnalyzer.is_corner_enclosure`: 19×19 only; a corner play whose
nearest friendly stone is truthy and closer than 2.5. -/
def isCornerEnclosure (n : Nat) (b : GoBoard) (x y player : Nat) : Option String :=
  if n ≠ 19 then none
  else if isCornerPlay n x y then
    match (distanceToNearestStonesSq b x y player).1 with
    | none => none
    | some d => if d ≠ 0 ∧ d < 7 then some "Small Knight" else none
  else none

/-- `GameAnalyzer.is_large_enclosure`: nearest friendly stone at
distance exactly 3.0 (no board-size guard in the source). -/
def isLargeEnclosure (b : GoBoard) (x y player : Nat) : Option String :=
  match (distanceToNearestStonesSq b x y player).1 with
  | none => none
  | some d => if d ≠ 0 ∧ d = 9 then some "Large Enclosure" else none

/-- Four times the squared distance from the board centre `(n-1)/2`
(`distance_from_center` squared and scaled to stay integral). -/
def distFromCenterSq4 (n x y : Nat) : Int :=
  (2 * (x : Int) - ((n : Int) - 1)) ^ 2 + (2 * (y : Int) - ((n : Int) - 1)) ^ 2

/-- The two players of the move records (`player_map = {'B': 1, 'W': 2}`
can only be indexed by these). -/
inductive Player where
  | B : Player
  | W : Player
deriving DecidableEq

/-- `player_map`. -/
def playerNum : Player → Nat
  | .B => 1
  | .W => 2

/-- One parsed move record: `x`/`y` are `none` exactly for a pass. -/
structure Move where
  player : Player
  x : Option Nat
  y : Option Nat
deriving DecidableEq

/-- The per-move analysis report.  Distances are stored squared (and
`distFromCenterSq4` scaled by 4), see the file header.  For a pass the
source leaves most keys absent; here they keep their defaults and only
`type` matters. -/
structure Report where
  moveNumber : Nat := 0
  player : Player := .B
  type : String := ""
  capturedCount : Nat := 0
  captures : List Cell := []
  liberties : Nat := 0
  atari : List Cell := []
  atariThreats : List Cell := []
  koDetected : Bool := false
  isContact : Bool := false
  isCut : Bool := false
  isConnection : Bool := false
  isCornerPlay : Bool := false
  isSmallNight : Option String := none
  isOneSpaceJump : Option String := none
  isTwoSpaceJump : Option String := none
  distFromCenterSq4 : Option Int := none
  distPrevSq : Option Nat := none
  distFriendlySq : Option Nat := none
  distEnemySq : Option Nat := none
  largeEnclosureType : Option String := none
deriving DecidableEq

/-- The `(3,3)`-style star points of `classify_move`. -/
def starPoints : List Cell := [(3, 3), (3, 15), (15, 3), (15, 15)]

/-- The 3-3 points of `classify_move`. -/
def threeThreePoints : List Cell := [(2, 2), (2, 16), (16, 2), (16, 16)]

/-- The 3-4 points of `classify_move`. -/
def threeFourPoints : List Cell :=
  [(2, 3), (3, 2), (2, 15), (15, 2), (3, 16), (16, 3), (15, 16), (16, 15)]

/-- `GameAnalyzer.classify_move`: the strict priority list.  The nested
`if self.board_size == 19 and move_index < 20:` block of the source is
flattened by conjoining its guard onto each of its four tests, which
preserves the fall-through behaviour.  Returns the `type` label and the
`large_enclosure_type` detail. -/
def classifyMove (n : Nat) (b : GoBoard) (x y i : Nat) (rep : Report) (player : Nat) :
    String × Option String :=
  if rep.capturedCount > 0 then ("Capture", none)
  else if rep.atari ≠ [] then ("Atari", none)
  else if rep.isCut then ("Cut", none)
  else if rep.isConnection then ("Connection", none)
  else if rep.atariThreats ≠ [] then ("Atari Threat", none)
  else if rep.isContact then ("Contact Move", none)
  else if n = 19 ∧ i < 20 ∧ (x, y) ∈ starPoints then ("Star Point", none)
  else if n = 19 ∧ i < 20 ∧ (x, y) ∈ threeThreePoints then ("3-3 Point", none)
  else if n = 19 ∧ i < 20 ∧ (x, y) ∈ threeFourPoints then ("3-4 Point", none)
  else if n = 19 ∧ i < 20 ∧ i = 0 then ("First Corner Play", none)
  else
    match isCornerEnclosure n b x y player with
    | some _ =>
      match isLargeEnclosure b x y player with
      | some s => (s, some s)
      | none => ("Corner Enclosure", none)
    | none =>
      if rep.isSmallNight.isSome then ("Small Knight", none)
      else if rep.isOneSpaceJump.isSome then ("One-Space Jump", none)
      else if rep.isTwoSpaceJump.isSome then ("Two-Space Jump", none)
      else if rep.isCornerPlay then ("Corner Play", none)
      else ("Normal Move", none)

/-- The report assembled by the loop body of `GameAnalyzer.analyze` for
a placement at `(x, y)` by `pl`, before classification fills in `type`
(steps 1–3 and the metrics of the source loop). -/
def placeRep (n : Nat) (b : GoBoard) (pB pW : Option Cell) (i : Nat) (pl : Player)
    (x y : Nat) : Report :=
  let p := playerNum pl
  let bAfter := (b.playMove x y p).1
  let captured := (b.playMove x y p).2
  let prev : Option Cell := match pl with | .B => pB | .W => pW
  { moveNumber := i + 1
    player := pl
    capturedCount := captured.length
    captures := captured
    liberties := (bAfter.getGroup x y).2.1.length
    atari := isAtari bAfter x y p
    atariThreats := detectAtariThreat bAfter x y p
    koDetected := detectKo bAfter x y p
    isContact := isContactMove bAfter x y p b
    isCut := isCutMove bAfter x y p b
    isConnection := isConnectionMove bAfter x y p b
    isCornerPlay := isCornerPlay n x y
    isSmallNight := isSmallNight n bAfter x y p
    isOneSpaceJump := isOneSpaceJump n bAfter x y p
    isTwoSpaceJump := isTwoSpaceJump n bAfter x y p
    distFromCenterSq4 := some (distFromCenterSq4 n x y)
    distPrevSq := prev.map fun q => distSq x y q.1 q.2
    distFriendlySq := (distanceToNearestStonesSq bAfter x y p).1
    distEnemySq := (distanceToNearestStonesSq bAfter x y p).2 }

/-- The loop body of `GameAnalyzer.analyze` for a placement: play the
move, assemble the report, classify, and update the per-player
previous-placement state. -/
def placeStep (n : Nat) (b : GoBoard) (pB pW : Option Cell) (i : Nat) (pl : Player)
    (x y : Nat) : Report × GoBoard × Option Cell × Option Cell :=
  let p := playerNum pl
  let bAfter := (b.playMove x y p).1
  let rep0 := placeRep n b pB pW i pl x y
  let cl := classifyMove n bAfter x y i rep0 p
  ({ rep0 with type := cl.1, largeEnclosureType := cl.2 }, bAfter,
   (if pl = .B then some (x, y) else pB), (if pl = .W then some (x, y) else pW))

/-- The body of the loop of `GameAnalyzer.analyze` for one move record:
produce the report and the updated board and per-player previous-move
state.  `i` is the 0-based move index. -/
def analyzeMoveStep (n : Nat) (b : GoBoard) (pB pW : Option Cell) (i : Nat) (mv : Move) :
    Report × GoBoard × Option Cell × Option Cell :=
  match mv.x, mv.y with
  | some x, some y => placeStep n b pB pW i mv.player x y
  | _, _ =>
    ({ moveNumber := i + 1, player := mv.player, type := "Pass" }, b, pB, pW)

/-- The loop of `GameAnalyzer.analyze` from state `(b, pB, pW)` and move
index `i`. -/
def analyzeFrom (n : Nat) (b : GoBoard) (pB pW : Option Cell) (i : Nat) :
    List Move → List Report
  | [] => []
  | mv :: rest =>
    let step := analyzeMoveStep n b pB pW i mv
    step.1 :: analyzeFrom n step.2.1 step.2.2.1 step.2.2.2 (i + 1) rest

/-- `GameAnalyzer.analyze` on a fresh board of side `n`. -/
def analyze (n : Nat) (moves : List Move) : List Report :=
  analyzeFrom n (GoBoard.empty n) none none 0 moves

end GameAnalyzer

/-- Reachability through `player`-coloured cells: `Reach b p s c` holds
when `c` can be reached from `s` by orthogonal steps that only ever land
on `player`-coloured cells (the start `s` is constrained by use sites).
This is the specification that the BFS of the source computes. -/
inductive Reach (b : GoBoard) (p : Nat) (s : Cell) : Cell → Prop
  | base : Reach b p s s
  | step {c d : Cell} :
      Reach b p s c → d ∈ b.getNeighbors c.1 c.2 → b.board d.2 d.1 = p → Reach b p s d

/-- The liberty-count invariant: every stone's group on the board has at
least one liberty. -/
def noDeadGroups (b : GoBoard) : Prop :=
  ∀ x, x < b.size → ∀ y, y < b.size → b.board y x ≠ 0 →
    (b.getGroupAndLiberties x y (b.board y x)).2 ≠ []

/-- The reachable-board invariant: all colours are 0, 1 or 2 and no
group is without liberties. -/
def goodBoard (b : GoBoard) : Prop :=
  ∀ x, x < b.size → ∀ y, y < b.size →
    (b.board y x = 0 ∨ b.board y x = 1 ∨ b.board y x = 2) ∧
    (b.board y x ≠ 0 → (b.getGroupAndLiberties x y (b.board y x)).2 ≠ [])

/-- "Some liberty": the point `e` is an empty cell adjacent to a cell
reachable from `s` through `p`-coloured cells. -/
def libertyOf (b : GoBoard) (p : Nat) (s e : Cell) : Prop :=
  b.board e.2 e.1 = 0 ∧ ∃ d, Reach b p s d ∧ e ∈ b.getNeighbors d.1 d.2

/-- A common liberty of the groups through `n1` and `n2` (used to state
the cut condition). -/
def commonLibPoint (tb : GoBoard) (q : Nat) (n1 n2 e : Cell) : Prop :=
  tb.board e.2 e.1 = 0 ∧
  (∃ d, Reach tb q n1 d ∧ e ∈ tb.getNeighbors d.1 d.2) ∧
  (∃ d, Reach tb q n2 d ∧ e ∈ tb.getNeighbors d.1 d.2)

/-- The specification of a cut, phrased exactly as the spec sentence:
two distinct opposing-colour groups orthogonally adjacent to the move
point whose liberty sets (on the before grid) intersect in exactly the
singleton containing the move point. -/
def cutSpec (b : GoBoard) (x y player : Nat) (before : GoBoard) : Prop :=
  let tb : GoBoard := ⟨b.size, before.board⟩
  ∃ n1 n2 : Cell,
    n1 ∈ b.getNeighbors x y ∧ n2 ∈ b.getNeighbors x y ∧
    tb.board n1.2 n1.1 = 3 - player ∧ tb.board n2.2 n2.1 = 3 - player ∧
    ¬ Reach tb (3 - player) n1 n2 ∧
    commonLibPoint tb (3 - player) n1 n2 (x, y) ∧
    ∀ e : Cell, commonLibPoint tb (3 - player) n1 n2 e → e = (x, y)

/-- The invariant of the BFS loop of `_get_group_and_liberties`, for a
search of colour `p` started at `s`.  `pend` lists cells whose neighbour
scan is currently in progress (the dequeued cell); they are exempt from
the `processed` clause. -/
structure BfsInv (b : GoBoard) (p : Nat) (s : Cell) (pend : List Cell) (st : BfsState) :
    Prop where
  vnd : st.visited.Nodup
  vbd : ∀ c ∈ st.visited, c.1 < b.size ∧ c.2 < b.size
  qs : ∀ c ∈ st.q, c ∈ st.stones
  sv : ∀ c ∈ st.stones, c ∈ st.visited
  lv : ∀ c ∈ st.libs, c ∈ st.visited
  snd : st.stones.Nodup
  lnd : st.libs.Nodup
  scolor : ∀ c ∈ st.stones, b.board c.2 c.1 = p
  sreach : ∀ c ∈ st.stones, Reach b p s c
  shome : s ∈ st.stones
  lmem : ∀ c ∈ st.libs, b.board c.2 c.1 = 0 ∧ ∃ d ∈ st.stones, c ∈ b.getNeighbors d.1 d.2
  vstones : ∀ c ∈ st.visited, b.board c.2 c.1 = p → c ∈ st.stones
  vlibs : ∀ c ∈ st.visited, b.board c.2 c.1 = 0 → c ∈ st.libs
  processed : ∀ c ∈ st.stones, c ∉ st.q → c ∉ pend →
    ∀ e ∈ b.getNeighbors c.1 c.2, e ∈ st.visited

/-- Concrete 3×3 position for the C1 counterexample: Black stones at
`(1,0)` and `(0,1)`; White to play at the empty corner `(0,0)` would be
a suicide (captures nothing, own group without liberties). -/
def suicideBoard : GoBoard := GoBoard.ofList [[0, 1, 0], [1, 0, 0], [0, 0, 0]]

/-- Concrete 3×3 position for the C4 counterexample: White group
`(0,0),(1,0),(0,1)`, Black stones at `(2,0)` and `(0,2)`; Black playing
`(1,1)` captures the White group, which touches `(1,1)` at two cells. -/
def doubleCaptureBoard : GoBoard := GoBoard.ofList [[2, 2, 1], [2, 0, 0], [1, 0, 0]]

/-- Concrete 5-record move list (3×3 board) for the C3 counterexample:
White builds the corner group, Black plays `(2,0)` and then `(1,1)`,
putting the three-stone White group in atari while touching it at two
cells. -/
def atariMoves : List GameAnalyzer.Move :=
  [⟨.W, some 0, some 0⟩, ⟨.W, some 0, some 1⟩, ⟨.W, some 1, some 0⟩,
   ⟨.B, some 2, some 0⟩, ⟨.B, some 1, some 1⟩]

/-- Concrete 19×19 position for C8: a Black stone at `(9,9)`; Black then
plays `(9,11)`, at Euclidean distance exactly 2 from it. -/
def jumpBoard : GoBoard := GoBoard.setCell (GoBoard.empty 19) 9 9 1

/-- The board reached after the five records of `atariMoves` (the same
`play_move` calls the analyzer makes). -/
def atariAfterBoard : GoBoard :=
  runMoves (GoBoard.empty 3) [(0, 0, 2), (0, 1, 2), (1, 0, 2), (2, 0, 1), (1, 1, 1)]

/-- The labels a non-19 board can receive from the pipeline. -/
def non19Labels : List String :=
  ["Pass", "Capture", "Atari", "Cut", "Connection", "Atari Threat",
   "Contact Move", "Corner Play", "Normal Move"]

/-- Concrete 3×3 position for the C7 witness: White stones at `(0,1)`
and `(2,1)`; their groups' only common liberty is `(1,1)`, so Black
playing there is a cut. -/
def cutBeforeBoard : GoBoard := GoBoard.ofList [[0, 0, 0], [2, 0, 2], [0, 0, 0]]

section Sanity

example : (GoBoard.empty 3).getNeighbors 1 1 = [(0, 1), (2, 1), (1, 0), (1, 2)] := by decide

example : ((GoBoard.empty 3).setCell 1 1 1).getGroupAndLiberties 1 1 1 =
    ([(1, 1)], [(0, 1), (2, 1), (1, 0), (1, 2)]) := by decide

example : (suicideBoard.playMove 0 0 2).2 = [] := by decide

example : (doubleCaptureBoard.playMove 1 1 1).2.length = 6 := by decide

end Sanity

/-! ### Neighbourhood lemmas -/

theorem mem_getNeighbors {b : GoBoard} {x y : Nat} {c : Cell} :
    c ∈ b.getNeighbors x y ↔
      (0 < x ∧ c = (x - 1, y)) ∨ (x < b.size - 1 ∧ c = (x + 1, y)) ∨
      (0 < y ∧ c = (x, y - 1)) ∨ (y < b.size - 1 ∧ c = (x, y + 1)) := by
  obtain ⟨c1, c2⟩ := c
  simp only [GoBoard.getNeighbors, List.mem_append, List.mem_singleton, Prod.mk.injEq]
  split_ifs <;> simp_all <;> omega

theorem getNeighbors_inBounds {b : GoBoard} {x y : Nat} {c : Cell}
    (hx : x < b.size) (hy : y < b.size) (hc : c ∈ b.getNeighbors x y) :
    c.1 < b.size ∧ c.2 < b.size := by
  rcases mem_getNeighbors.1 hc with ⟨h1, rfl⟩ | ⟨h1, rfl⟩ | ⟨h1, rfl⟩ | ⟨h1, rfl⟩ <;>
    simp <;> omega

theorem getNeighbors_symm {b : GoBoard} {x y : Nat} {c : Cell}
    (hx : x < b.size) (hy : y < b.size) (hc : c ∈ b.getNeighbors x y) :
    (x, y) ∈ b.getNeighbors c.1 c.2 := by
  rcases mem_getNeighbors.1 hc with ⟨h1, rfl⟩ | ⟨h1, rfl⟩ | ⟨h1, rfl⟩ | ⟨h1, rfl⟩ <;>
    rw [mem_getNeighbors] <;> simp <;> omega

theorem getNeighbors_ne {b : GoBoard} {x y : Nat} {c : Cell}
    (hc : c ∈ b.getNeighbors x y) : c ≠ (x, y) := by
  rcases mem_getNeighbors.1 hc with ⟨h1, rfl⟩ | ⟨h1, rfl⟩ | ⟨h1, rfl⟩ | ⟨h1, rfl⟩ <;>
    simp <;> omega

theorem getNeighbors_size_eq {b b' : GoBoard} (h : b'.size = b.size) (x y : Nat) :
    b'.getNeighbors x y = b.getNeighbors x y := by
  simp [GoBoard.getNeighbors, h]

/-! ### Reachability lemmas -/

theorem Reach.color {b : GoBoard} {p : Nat} {s c : Cell}
    (hs : b.board s.2 s.1 = p) (h : Reach b p s c) : b.board c.2 c.1 = p := by
  cases h with
  | base => exact hs
  | step _ _ hcol => exact hcol

theorem Reach.inBounds {b : GoBoard} {p : Nat} {s c : Cell}
    (hs : s.1 < b.size ∧ s.2 < b.size) (h : Reach b p s c) :
    c.1 < b.size ∧ c.2 < b.size := by
  induction h with
  | base => exact hs
  | step _ hmem _ ih => exact getNeighbors_inBounds ih.1 ih.2 hmem

theorem Reach.trans {b : GoBoard} {p : Nat} {s c d : Cell}
    (h1 : Reach b p s c) (h2 : Reach b p c d) : Reach b p s d := by
  induction h2 with
  | base => exact h1
  | step _ hmem hcol ih => exact Reach.step ih hmem hcol

theorem Reach.symm {b : GoBoard} {p : Nat} {s c : Cell}
    (hs : s.1 < b.size ∧ s.2 < b.size) (hcol : b.board s.2 s.1 = p)
    (h : Reach b p s c) : Reach b p c s := by
  induction h with
  | base => exact Reach.base
  | @step c' d hr hmem hcol' ih =>
    have hcb : c'.1 < b.size ∧ c'.2 < b.size := hr.inBounds hs
    have hc'col : b.board c'.2 c'.1 = p := hr.color hcol
    have hstep : Reach b p d c' :=
      Reach.step Reach.base (getNeighbors_symm hcb.1 hcb.2 hmem) hc'col
    exact hstep.trans ih

theorem Reach.transfer {b b' : GoBoard} {p : Nat} {s c : Cell}
    (hsz : b'.size = b.size) (hcol : ∀ i j, b'.board j i = p ↔ b.board j i = p)
    (h : Reach b p s c) : Reach b' p s c := by
  induction h with
  | base => exact Reach.base
  | @step c' d _ hmem hc ih =>
    refine Reach.step ih ?_ ((hcol d.1 d.2).2 hc)
    rw [getNeighbors_size_eq hsz]
    exact hmem

/-! ### Counting: a duplicate-free list of in-bounds cells has at most
`n * n` elements. -/

theorem length_le_size_sq {n : Nat} {l : List Cell}
    (hnd : l.Nodup) (hbd : ∀ c ∈ l, c.1 < n ∧ c.2 < n) : l.length ≤ n * n := by
  classical
  have hinj : ∀ c ∈ l, ∀ d ∈ l, c.2 * n + c.1 = d.2 * n + d.1 → c = d := by
    intro c hc d hd h
    have h1 := (hbd c hc).1
    have h2 := (hbd d hd).1
    have key : ∀ a e a' e' : Nat, a < n → a' < n → e * n + a = e' * n + a' → e ≤ e' →
        a = a' ∧ e = e' := by
      intro a e a' e' ha ha' heq hle
      obtain ⟨k, rfl⟩ := Nat.exists_eq_add_of_le hle
      rw [Nat.add_mul] at heq
      have hk : k = 0 := by
        by_contra hk0
        have : n ≤ k * n := Nat.le_mul_of_pos_left n (by omega)
        omega
      subst hk
      omega
    rcases Nat.le_total c.2 d.2 with hle | hle
    · obtain ⟨ha, he⟩ := key c.1 c.2 d.1 d.2 h1 h2 h hle
      exact Prod.ext ha he
    · obtain ⟨ha, he⟩ := key d.1 d.2 c.1 c.2 h2 h1 h.symm hle
      exact Prod.ext ha.symm he.symm
  have hmapnd : (l.map fun c => c.2 * n + c.1).Nodup := hnd.map_on hinj
  have hsub : (l.map fun c => c.2 * n + c.1).toFinset ⊆ Finset.range (n * n) := by
    intro e he
    rw [List.mem_toFinset, List.mem_map] at he
    obtain ⟨c, hc, rfl⟩ := he
    rw [Finset.mem_range]
    have h1 := (hbd c hc).1
    have h2 := (hbd c hc).2
    calc c.2 * n + c.1 < c.2 * n + n := by omega
    _ = (c.2 + 1) * n := by ring
    _ ≤ n * n := Nat.mul_le_mul_right n (by omega)
  calc l.length = (l.map fun c => c.2 * n + c.1).length := (List.length_map _ _).symm
  _ = (l.map fun c => c.2 * n + c.1).toFinset.card := (List.toFinset_card_of_nodup hmapnd).symm
  _ ≤ (Finset.range (n * n)).card := Finset.card_le_card hsub
  _ = n * n := Finset.card_range _

/-! ### The BFS computes groups and liberties -/

theorem visitCell_spec {b : GoBoard} {p : Nat} {s : Cell} {pend : List Cell} {st : BfsState}
    {c : Cell} (hp : p ≠ 0) (hInv : BfsInv b p s pend st)
    (hcb : c.1 < b.size ∧ c.2 < b.size)
    (hsrc : ∃ d ∈ st.stones, c ∈ b.getNeighbors d.1 d.2) :
    BfsInv b p s pend (b.visitCell p st c) ∧ c ∈ (b.visitCell p st c).visited ∧
    (∃ add, (b.visitCell p st c).q = st.q ++ add ∧
      (b.visitCell p st c).stones = st.stones ++ add) ∧
    (∀ e ∈ st.visited, e ∈ (b.visitCell p st c).visited) ∧
    (∀ e ∈ st.libs, e ∈ (b.visitCell p st c).libs) ∧
    (b.visitCell p st c).q.length + st.visited.length ≤
      st.q.length + (b.visitCell p st c).visited.length ∧
    st.visited.length ≤ (b.visitCell p st c).visited.length := by
  unfold GoBoard.visitCell
  by_cases hv : c ∈ st.visited
  · simp only [if_pos hv]
    exact ⟨hInv, hv, ⟨[], by simp, by simp⟩, fun e he => he, fun e he => he,
      by omega, by omega⟩
  · simp only [if_neg hv]
    by_cases h0 : b.board c.2 c.1 = 0
    · simp only [if_pos h0]
      refine ⟨⟨?_, ?_, ?_, ?_, ?_, ?_, ?_, ?_, ?_, ?_, ?_, ?_, ?_, ?_⟩,
        ?_, ⟨[], by simp, by simp⟩, ?_, ?_, ?_, ?_⟩
      · exact List.nodup_cons.2 ⟨hv, hInv.vnd⟩
      · intro e he
        rcases List.mem_cons.1 he with rfl | he
        · exact hcb
        · exact hInv.vbd e he
      · exact hInv.qs
      · exact fun e he => List.mem_cons_of_mem _ (hInv.sv e he)
      · intro e he
        rcases List.mem_append.1 he with he | he
        · exact List.mem_cons_of_mem _ (hInv.lv e he)
        · simp_all
      · exact hInv.snd
      · rw [List.nodup_append]
        refine ⟨hInv.lnd, List.nodup_singleton c, ?_⟩
        intro a ha hac
        rw [List.mem_singleton] at hac
        subst hac
        exact hv (hInv.lv a ha)
      · exact hInv.scolor
      · exact hInv.sreach
      · exact hInv.shome
      · intro e he
        rcases List.mem_append.1 he with he | he
        · exact hInv.lmem e he
        · rw [List.mem_singleton] at he
          subst he
          exact ⟨h0, hsrc⟩
      · intro e he hep
        rcases List.mem_cons.1 he with rfl | he
        · exact absurd (hep.symm.trans h0) hp
        · exact hInv.vstones e he hep
      · intro e he he0
        rcases List.mem_cons.1 he with rfl | he
        · exact List.mem_append.2 (Or.inr (List.mem_singleton.2 rfl))
        · exact List.mem_append.2 (Or.inl (hInv.vlibs e he he0))
      · intro e he heq hepend d hd
        exact List.mem_cons_of_mem _ (hInv.processed e he heq hepend d hd)
      · exact List.mem_cons_self c _
      · exact fun e he => List.mem_cons_of_mem _ he
      · exact fun e he => List.mem_append.2 (Or.inl he)
      · simp
      · simp
    · simp only [if_neg h0]
      by_cases hcp : b.board c.2 c.1 = p
      · simp only [if_pos hcp]
        refine ⟨⟨?_, ?_, ?_, ?_, ?_, ?_, ?_, ?_, ?_, ?_, ?_, ?_, ?_, ?_⟩,
          ?_, ⟨[c], rfl, rfl⟩, ?_, ?_, ?_, ?_⟩
        · exact List.nodup_cons.2 ⟨hv, hInv.vnd⟩
        · intro e he
          rcases List.mem_cons.1 he with rfl | he
          · exact hcb
          · exact hInv.vbd e he
        · intro e he
          rcases List.mem_append.1 he with he | he
          · exact List.mem_append.2 (Or.inl (hInv.qs e he))
          · exact List.mem_append.2 (Or.inr he)
        · intro e he
          rcases List.mem_append.1 he with he | he
          · exact List.mem_cons_of_mem _ (hInv.sv e he)
          · simp_all
        · exact fun e he => List.mem_cons_of_mem _ (hInv.lv e he)
        · rw [List.nodup_append]
          refine ⟨hInv.snd, List.nodup_singleton c, ?_⟩
          intro a ha hac
          rw [List.mem_singleton] at hac
          subst hac
          exact hv (hInv.sv a ha)
        · exact hInv.lnd
        · intro e he
          rcases List.mem_append.1 he with he | he
          · exact hInv.scolor e he
          · rw [List.mem_singleton] at he
            subst he
            exact hcp
        · intro e he
          rcases List.mem_append.1 he with he | he
          · exact hInv.sreach e he
          · rw [List.mem_singleton] at he
            subst he
            obtain ⟨d, hd, hnb⟩ := hsrc
            exact Reach.step (hInv.sreach d hd) hnb hcp
        · exact List.mem_append.2 (Or.inl hInv.shome)
        · intro e he
          obtain ⟨h0e, d, hd, hnb⟩ := hInv.lmem e he
          exact ⟨h0e, d, List.mem_append.2 (Or.inl hd), hnb⟩
        · intro e he hep
          rcases List.mem_cons.1 he with rfl | he
          · exact List.mem_append.2 (Or.inr (List.mem_singleton.2 rfl))
          · exact List.mem_append.2 (Or.inl (hInv.vstones e he hep))
        · intro e he he0
          rcases List.mem_cons.1 he with rfl | he
          · exact absurd he0 h0
          · exact hInv.vlibs e he he0
        · intro e he heq hepend d hd
          rcases List.mem_append.1 he with he | he
          · have heq' : e ∉ st.q := fun hmem => heq (List.mem_append.2 (Or.inl hmem))
            exact List.mem_cons_of_mem _ (hInv.processed e he heq' hepend d hd)
          · rw [List.mem_singleton] at he
            subst he
            exact absurd (List.mem_append.2 (Or.inr (List.mem_singleton.2 rfl))) heq
        · exact List.mem_cons_self c _
        · exact fun e he => List.mem_cons_of_mem _ he
        · exact fun e he => he
        · simp only [List.length_append, List.length_cons, List.length_nil]
          omega
        · simp only [List.length_cons]
          omega
      · simp only [if_neg hcp]
        refine ⟨⟨?_, ?_, ?_, ?_, ?_, ?_, ?_, ?_, ?_, ?_, ?_, ?_, ?_, ?_⟩,
          ?_, ⟨[], by simp, by simp⟩, ?_, ?_, ?_, ?_⟩
        · exact List.nodup_cons.2 ⟨hv, hInv.vnd⟩
        · intro e he
          rcases List.mem_cons.1 he with rfl | he
          · exact hcb
          · exact hInv.vbd e he
        · exact hInv.qs
        · exact fun e he => List.mem_cons_of_mem _ (hInv.sv e he)
        · exact fun e he => List.mem_cons_of_mem _ (hInv.lv e he)
        · exact hInv.snd
        · exact hInv.lnd
        · exact hInv.scolor
        · exact hInv.sreach
        · exact hInv.shome
        · exact hInv.lmem
        · intro e he hep
          rcases List.mem_cons.1 he with rfl | he
          · exact absurd hep hcp
          · exact hInv.vstones e he hep
        · intro e he he0
          rcases List.mem_cons.1 he with rfl | he
          · exact absurd he0 h0
          · exact hInv.vlibs e he he0
        · intro e he heq hepend d hd
          exact List.mem_cons_of_mem _ (hInv.processed e he heq hepend d hd)
        · exact List.mem_cons_self c _
        · exact fun e he => List.mem_cons_of_mem _ he
        · exact fun e he => he
        · simp
        · simp

theorem scanNeighbors_spec {b : GoBoard} {p : Nat} {s : Cell} {pend : List Cell}
    (hp : p ≠ 0) :
    ∀ (ns : List Cell) (st : BfsState), BfsInv b p s pend st →
      (∀ e ∈ ns, e.1 < b.size ∧ e.2 < b.size) →
      (∀ e ∈ ns, ∃ d ∈ st.stones, e ∈ b.getNeighbors d.1 d.2) →
      BfsInv b p s pend (ns.foldl (b.visitCell p) st) ∧
      (∀ e ∈ ns, e ∈ (ns.foldl (b.visitCell p) st).visited) ∧
      (∃ add, (ns.foldl (b.visitCell p) st).q = st.q ++ add ∧
        (ns.foldl (b.visitCell p) st).stones = st.stones ++ add) ∧
      (∀ e ∈ st.visited, e ∈ (ns.foldl (b.visitCell p) st).visited) ∧
      (ns.foldl (b.visitCell p) st).q.length + st.visited.length ≤
        st.q.length + (ns.foldl (b.visitCell p) st).visited.length ∧
      st.visited.length ≤ (ns.foldl (b.visitCell p) st).visited.length
  | [], st, hInv, _, _ =>
    ⟨hInv, by simp, ⟨[], by simp, by simp⟩, fun e he => he, by simp, by simp⟩
  | c :: ns, st, hInv, hbd, hsrc => by
    obtain ⟨hInv1, hcv, ⟨add1, hq1, hs1⟩, hvmono1, _hlmono1, hlen1a, hlen1b⟩ :=
      visitCell_spec hp hInv (hbd c (by simp)) (hsrc c (by simp))
    obtain ⟨hInv2, hns2, ⟨add2, hq2, hs2⟩, hvmono2, hlen2a, hlen2b⟩ :=
      scanNeighbors_spec hp ns (b.visitCell p st c) hInv1
        (fun e he => hbd e (List.mem_cons_of_mem _ he))
        (fun e he => by
          obtain ⟨d, hd, hnb⟩ := hsrc e (List.mem_cons_of_mem _ he)
          refine ⟨d, ?_, hnb⟩
          rw [hs1]
          exact List.mem_append.2 (Or.inl hd))
    rw [List.foldl_cons]
    refine ⟨hInv2, ?_, ⟨add1 ++ add2, ?_, ?_⟩, ?_, ?_, ?_⟩
    · intro e he
      rcases List.mem_cons.1 he with rfl | he
      · exact hvmono2 e hcv
      · exact hns2 e he
    · rw [hq2, hq1, List.append_assoc]
    · rw [hs2, hs1, List.append_assoc]
    · exact fun e he => hvmono2 e (hvmono1 e he)
    · omega
    · omega

theorem bfsLoop_run {b : GoBoard} {p : Nat} {s : Cell} (hp : p ≠ 0) :
    ∀ (fuel : Nat) (st : BfsState), BfsInv b p s [] st →
      b.size * b.size + st.q.length + 1 ≤ fuel + st.visited.length →
      BfsInv b p s [] (b.bfsLoop p fuel st) ∧ (b.bfsLoop p fuel st).q = [] := by
  intro fuel
  induction fuel with
  | zero =>
    intro st hInv hfuel
    have hv := length_le_size_sq hInv.vnd hInv.vbd
    omega
  | succ fuel ih =>
    rintro ⟨q, v, so, li⟩ hInv hfuel
    match hq : q with
    | [] =>
      exact ⟨hInv, rfl⟩
    | c :: rest =>
      have hcs : c ∈ so := hInv.qs c (by simp)
      have hcv : c ∈ v := hInv.sv c hcs
      have hcb := hInv.vbd c hcv
      have hInv0 : BfsInv b p s [c] ⟨rest, v, so, li⟩ := by
        refine ⟨hInv.vnd, hInv.vbd, ?_, hInv.sv, hInv.lv, hInv.snd, hInv.lnd,
          hInv.scolor, hInv.sreach, hInv.shome, hInv.lmem, hInv.vstones, hInv.vlibs, ?_⟩
        · exact fun e he => hInv.qs e (List.mem_cons_of_mem _ he)
        · intro e he heq hepend d hd
          refine hInv.processed e he ?_ (by simp) d hd
          intro hmem
          rcases List.mem_cons.1 hmem with rfl | hmem
          · exact hepend (by simp)
          · exact heq hmem
      have hnsbd : ∀ e ∈ b.getNeighbors c.1 c.2, e.1 < b.size ∧ e.2 < b.size :=
        fun e he => getNeighbors_inBounds hcb.1 hcb.2 he
      have hnssrc : ∀ e ∈ b.getNeighbors c.1 c.2,
          ∃ d ∈ (⟨rest, v, so, li⟩ : BfsState).stones, e ∈ b.getNeighbors d.1 d.2 :=
        fun e he => ⟨c, hcs, he⟩
      obtain ⟨hInv', hns', ⟨add, hqadd, hsadd⟩, hvmono, hlena, hlenb⟩ :=
        scanNeighbors_spec hp (b.getNeighbors c.1 c.2) ⟨rest, v, so, li⟩ hInv0 hnsbd hnssrc
      set st' := (b.getNeighbors c.1 c.2).foldl (b.visitCell p) ⟨rest, v, so, li⟩ with hst'
      have hInvClean : BfsInv b p s [] st' := by
        refine ⟨hInv'.vnd, hInv'.vbd, hInv'.qs, hInv'.sv, hInv'.lv, hInv'.snd, hInv'.lnd,
          hInv'.scolor, hInv'.sreach, hInv'.shome, hInv'.lmem, hInv'.vstones, hInv'.vlibs, ?_⟩
        intro e he heq _ d hd
        by_cases hec : e = c
        · subst hec
          exact hns' d hd
        · exact hInv'.processed e he heq (by simp [hec]) d hd
      have hmeasure : b.size * b.size + st'.q.length + 1 ≤ fuel + st'.visited.length := by
        simp only [BfsState.q, BfsState.visited] at hlena hlenb hfuel ⊢
        simp only [List.length_cons] at hfuel
        omega
      have hrun := ih st' hInvClean hmeasure
      have hunfold : b.bfsLoop p (fuel + 1) ⟨c :: rest, v, so, li⟩ = b.bfsLoop p fuel st' := rfl
      rw [hunfold]
      exact hrun

theorem getGroupAndLiberties_spec {b : GoBoard} {x y p : Nat}
    (hx : x < b.size) (hy : y < b.size) (hcol : b.board y x = p) (hp : p ≠ 0) :
    (∀ c, c ∈ (b.getGroupAndLiberties x y p).1 ↔ Reach b p (x, y) c) ∧
    (∀ c, c ∈ (b.getGroupAndLiberties x y p).2 ↔ libertyOf b p (x, y) c) ∧
    (b.getGroupAndLiberties x y p).1.Nodup ∧ (b.getGroupAndLiberties x y p).2.Nodup := by
  have hInit : BfsInv b p (x, y) [] ⟨[(x, y)], [(x, y)], [(x, y)], []⟩ := by
    refine ⟨List.nodup_singleton _, ?_, ?_, ?_, ?_, List.nodup_singleton _,
      List.nodup_nil, ?_, ?_, ?_, ?_, ?_, ?_, ?_⟩
    · intro c hc
      rw [List.mem_singleton] at hc
      subst hc
      exact ⟨hx, hy⟩
    · exact fun c hc => hc
    · exact fun c hc => hc
    · exact fun c hc => absurd hc (List.not_mem_nil c)
    · intro c hc
      rw [List.mem_singleton] at hc
      subst hc
      exact hcol
    · intro c hc
      rw [List.mem_singleton] at hc
      subst hc
      exact Reach.base
    · exact List.mem_singleton.2 rfl
    · exact fun c hc => absurd hc (List.not_mem_nil c)
    · exact fun c hc _ => hc
    · intro c hc hc0
      rw [List.mem_singleton] at hc
      subst hc
      exact absurd (hcol.symm.trans hc0) hp
    · intro c hc hcq
      exfalso
      apply hcq
      rw [List.mem_singleton] at hc
      subst hc
      simp
  have hmeasure : b.size * b.size + ([(x, y)] : List Cell).length + 1 ≤
      (b.size * b.size + 1) + ([(x, y)] : List Cell).length := by
    simp
  obtain ⟨hInv, hqnil⟩ := bfsLoop_run hp (b.size * b.size + 1) _ hInit hmeasure
  have hgl : b.getGroupAndLiberties x y p =
      ((b.bfsLoop p (b.size * b.size + 1) ⟨[(x, y)], [(x, y)], [(x, y)], []⟩).stones,
       (b.bfsLoop p (b.size * b.size + 1) ⟨[(x, y)], [(x, y)], [(x, y)], []⟩).libs) := by
    rw [GoBoard.getGroupAndLiberties, if_pos ⟨hx, hy, hcol⟩]
  set st := b.bfsLoop p (b.size * b.size + 1) ⟨[(x, y)], [(x, y)], [(x, y)], []⟩ with hst
  have hcomplete : ∀ c, Reach b p (x, y) c → c ∈ st.stones := by
    intro c hr
    induction hr with
    | base => exact hInv.shome
    | @step c' d hr' hnb hcolond ih =>
      have hvis : d ∈ st.visited :=
        hInv.processed c' ih (by rw [hqnil]; exact List.not_mem_nil c')
          (List.not_mem_nil c') d hnb
      exact hInv.vstones d hvis hcolond
  rw [hgl]
  refine ⟨?_, ?_, hInv.snd, hInv.lnd⟩
  · intro c
    exact ⟨fun hc => hInv.sreach c hc, hcomplete c⟩
  · intro c
    constructor
    · intro hc
      obtain ⟨h0, d, hd, hnb⟩ := hInv.lmem c hc
      exact ⟨h0, d, hInv.sreach d hd, hnb⟩
    · rintro ⟨h0, d, hr, hnb⟩
      have hds : d ∈ st.stones := hcomplete d hr
      have hvis : c ∈ st.visited :=
        hInv.processed d hds (by rw [hqnil]; exact List.not_mem_nil d)
          (List.not_mem_nil d) c hnb
      exact hInv.vlibs c hvis h0

theorem getGroupAndLiberties_eq_nil {b : GoBoard} {x y p : Nat}
    (h : ¬(x < b.size ∧ y < b.size ∧ b.board y x = p)) :
    b.getGroupAndLiberties x y p = ([], []) := by
  rw [GoBoard.getGroupAndLiberties, if_neg h]

theorem mem_group_iff {b : GoBoard} {x y p : Nat} {c : Cell}
    (hx : x < b.size) (hy : y < b.size) (hcol : b.board y x = p) (hp : p ≠ 0) :
    c ∈ (b.getGroupAndLiberties x y p).1 ↔ Reach b p (x, y) c :=
  (getGroupAndLiberties_spec hx hy hcol hp).1 c

theorem mem_libs_iff {b : GoBoard} {x y p : Nat} {c : Cell}
    (hx : x < b.size) (hy : y < b.size) (hcol : b.board y x = p) (hp : p ≠ 0) :
    c ∈ (b.getGroupAndLiberties x y p).2 ↔ libertyOf b p (x, y) c :=
  (getGroupAndLiberties_spec hx hy hcol hp).2.1 c

theorem libs_ne_nil_iff {b : GoBoard} {x y p : Nat}
    (hx : x < b.size) (hy : y < b.size) (hcol : b.board y x = p) (hp : p ≠ 0) :
    (b.getGroupAndLiberties x y p).2 ≠ [] ↔ ∃ e, libertyOf b p (x, y) e := by
  constructor
  · intro h
    obtain ⟨e, he⟩ := List.exists_mem_of_ne_nil _ h
    exact ⟨e, (mem_libs_iff hx hy hcol hp).1 he⟩
  · rintro ⟨e, he⟩
    intro hnil
    have hm := (mem_libs_iff hx hy hcol hp).2 he
    rw [hnil] at hm
    exact List.not_mem_nil e hm

theorem libs_isEmpty_iff {b : GoBoard} {x y p : Nat}
    (hx : x < b.size) (hy : y < b.size) (hcol : b.board y x = p) (hp : p ≠ 0) :
    (b.getGroupAndLiberties x y p).2.isEmpty = true ↔ ∀ e, ¬ libertyOf b p (x, y) e := by
  rw [List.isEmpty_iff, List.eq_nil_iff_forall_not_mem]
  constructor
  · intro h e he
    exact h e ((mem_libs_iff hx hy hcol hp).2 he)
  · intro h e he
    exact h e ((mem_libs_iff hx hy hcol hp).1 he)

/-! ### Board update lemmas -/

theorem setCell_board (b : GoBoard) (x y v i j : Nat) :
    (b.setCell x y v).board j i = if j = y ∧ i = x then v else b.board j i := rfl

theorem setCell_size (b : GoBoard) (x y v : Nat) : (b.setCell x y v).size = b.size := rfl

theorem removeStones_size (b : GoBoard) (cs : List Cell) :
    (b.removeStones cs).size = b.size := by
  induction cs generalizing b with
  | nil => rfl
  | cons c rest ih => exact (ih (b.setCell c.1 c.2 0)).trans rfl

theorem removeStones_board (b : GoBoard) (cs : List Cell) (i j : Nat) :
    (b.removeStones cs).board j i = if (i, j) ∈ cs then 0 else b.board j i := by
  induction cs generalizing b with
  | nil => simp [GoBoard.removeStones]
  | cons c rest ih =>
    have hstep : b.removeStones (c :: rest) = (b.setCell c.1 c.2 0).removeStones rest := rfl
    rw [hstep, ih, setCell_board]
    by_cases hm : (i, j) ∈ rest
    · simp [hm]
    · by_cases hc : (i, j) = c
      · subst hc
        simp [hm]
      · have : ¬(j = c.2 ∧ i = c.1) := by
          intro ⟨h1, h2⟩
          exact hc (by rw [Prod.ext_iff]; exact ⟨h2, h1⟩)
        simp [hm, hc, this]

/-! ### Captured stones -/

theorem mem_foldl_append {g : Cell → List Cell} {c : Cell} :
    ∀ (l : List Cell) (acc : List Cell),
      c ∈ l.foldl (fun a e => a ++ g e) acc ↔ c ∈ acc ∨ ∃ e ∈ l, c ∈ g e
  | [], acc => by simp
  | e :: l, acc => by
    rw [List.foldl_cons, mem_foldl_append l]
    simp only [List.mem_append, List.mem_cons]
    constructor
    · rintro ((h | h) | ⟨f, hf, hc⟩)
      · exact Or.inl h
      · exact Or.inr ⟨e, Or.inl rfl, h⟩
      · exact Or.inr ⟨f, Or.inr hf, hc⟩
    · rintro (h | ⟨f, (rfl | hf), hc⟩)
      · exact Or.inl (Or.inl h)
      · exact Or.inl (Or.inr hc)
      · exact Or.inr ⟨f, hf, hc⟩

theorem mem_getCapturedStones {b : GoBoard} {x y p : Nat} {c : Cell} :
    c ∈ b.getCapturedStones x y p ↔
      ∃ e ∈ b.getNeighbors x y, c ∈ b.capturedContrib p e := by
  rw [GoBoard.getCapturedStones, mem_foldl_append]
  simp

theorem mem_capturedContrib {b : GoBoard} {p : Nat} {nb c : Cell}
    (hnb : nb.1 < b.size ∧ nb.2 < b.size) (hq : 3 - p ≠ 0) :
    c ∈ b.capturedContrib p nb ↔
      b.board nb.2 nb.1 = 3 - p ∧ (∀ e, ¬ libertyOf b (3 - p) (nb.1, nb.2) e) ∧
        Reach b (3 - p) (nb.1, nb.2) c := by
  rw [GoBoard.capturedContrib]
  by_cases hcol : b.board nb.2 nb.1 = 3 - p
  · rw [if_pos hcol]
    by_cases hdead : (b.getGroupAndLiberties nb.1 nb.2 (3 - p)).2.isEmpty = true
    · rw [if_pos hdead]
      rw [libs_isEmpty_iff hnb.1 hnb.2 hcol hq] at hdead
      rw [mem_group_iff hnb.1 hnb.2 hcol hq]
      exact ⟨fun h => ⟨hcol, hdead, h⟩, fun h => h.2.2⟩
    · rw [if_neg hdead]
      simp only [List.not_mem_nil, false_iff]
      rintro ⟨-, hdead', -⟩
      exact hdead ((libs_isEmpty_iff hnb.1 hnb.2 hcol hq).2 hdead')
  · rw [if_neg hcol]
    simp only [List.not_mem_nil, false_iff]
    rintro ⟨h, -, -⟩
    exact hcol h

theorem mem_getCapturedStones_iff {b : GoBoard} {x y p : Nat} {c : Cell}
    (hx : x < b.size) (hy : y < b.size) (hq : 3 - p ≠ 0) :
    c ∈ b.getCapturedStones x y p ↔
      ∃ nb ∈ b.getNeighbors x y, b.board nb.2 nb.1 = 3 - p ∧
        (∀ e, ¬ libertyOf b (3 - p) (nb.1, nb.2) e) ∧ Reach b (3 - p) (nb.1, nb.2) c := by
  rw [mem_getCapturedStones]
  constructor
  · rintro ⟨nb, hnb, hc⟩
    rw [mem_capturedContrib (getNeighbors_inBounds hx hy hnb) hq] at hc
    exact ⟨nb, hnb, hc⟩
  · rintro ⟨nb, hnb, hc⟩
    refine ⟨nb, hnb, ?_⟩
    rw [mem_capturedContrib (getNeighbors_inBounds hx hy hnb) hq]
    exact hc

theorem Reach.mono {b b' : GoBoard} {p : Nat} {s c : Cell}
    (hsz : b'.size = b.size) (hcol : ∀ i j, b'.board j i = p → b.board j i = p)
    (h : Reach b' p s c) : Reach b p s c := by
  induction h with
  | base => exact Reach.base
  | @step c' d _ hmem hc ih =>
    refine Reach.step ih ?_ (hcol d.1 d.2 hc)
    rw [← getNeighbors_size_eq hsz]
    exact hmem

/-! ### Unfolding `is_valid_move` and `play_move` -/

theorem isValidMove_true_iff {b : GoBoard} {x y p : Nat} :
    b.isValidMove x y p = true ↔
      x < b.size ∧ y < b.size ∧ b.board y x = 0 ∧
        ((b.setCell x y p).getCapturedStones x y p ≠ [] ∨
         ((b.setCell x y p).getGroupAndLiberties x y p).2 ≠ []) := by
  rw [GoBoard.isValidMove]
  by_cases hb : x < b.size ∧ y < b.size
  · rw [if_pos hb]
    by_cases h0 : b.board y x ≠ 0
    · simp [h0, hb]
    · rw [if_neg h0]
      push_neg at h0
      by_cases hcap : (b.setCell x y p).getCapturedStones x y p ≠ []
      · simp [hcap, hb, h0]
      · push_neg at hcap
        simp only [if_neg (by simp [hcap] : ¬(b.setCell x y p).getCapturedStones x y p ≠ [])]
        simp [hb, h0, hcap, List.isEmpty_iff]
  · rw [if_neg hb]
    simp only [Bool.false_eq_true, false_iff]
    intro hcontra
    exact hb ⟨hcontra.1, hcontra.2.1⟩

theorem playMove_of_valid {b : GoBoard} {x y p : Nat} (h : b.isValidMove x y p = true) :
    b.playMove x y p =
      ((b.setCell x y p).removeStones ((b.setCell x y p).getCapturedStones x y p),
       (b.setCell x y p).getCapturedStones x y p) := by
  rw [GoBoard.playMove, if_pos h]

theorem playMove_of_invalid {b : GoBoard} {x y p : Nat} (h : ¬ b.isValidMove x y p = true) :
    b.playMove x y p = (b, []) := by
  rw [GoBoard.playMove, if_neg h]

/-! ### `play_move` preserves the liberty invariant -/

theorem playMove_preserves_goodBoard {b : GoBoard} {x y p : Nat}
    (hg : goodBoard b) (hp12 : p = 1 ∨ p = 2) :
    goodBoard (b.playMove x y p).1 := by
  by_cases hv : b.isValidMove x y p = true
  case neg =>
    rw [playMove_of_invalid hv]
    exact hg
  case pos =>
    rw [playMove_of_valid hv]
    obtain ⟨hx, hy, hempty, hOr⟩ := isValidMove_true_iff.1 hv
    show goodBoard ((b.setCell x y p).removeStones ((b.setCell x y p).getCapturedStones x y p))
    set b1 := b.setCell x y p with hb1
    set captured := b1.getCapturedStones x y p with hcapdef
    set b2 := b1.removeStones captured with hb2def
    have hpne : p ≠ 0 := by omega
    have hqne : 3 - p ≠ 0 := by omega
    have hqp : 3 - p ≠ p := by omega
    have hcapiff : ∀ c : Cell, c ∈ captured ↔
        ∃ nb ∈ b1.getNeighbors x y, b1.board nb.2 nb.1 = 3 - p ∧
          (∀ e, ¬ libertyOf b1 (3 - p) (nb.1, nb.2) e) ∧ Reach b1 (3 - p) (nb.1, nb.2) c :=
      fun c => @mem_getCapturedStones_iff b1 x y p c hx hy hqne
    have hsz2 : b2.size = b.size := by rw [hb2def]; exact removeStones_size b1 captured
    have hb1at : ∀ i j, ¬(i = x ∧ j = y) → b1.board j i = b.board j i := by
      intro i j h
      rw [hb1, setCell_board, if_neg]
      intro hc
      exact h ⟨hc.2, hc.1⟩
    have hxy1 : b1.board y x = p := by rw [hb1, setCell_board]; simp
    have hb2at : ∀ i j, (i, j) ∉ captured → b2.board j i = b1.board j i := by
      intro i j h
      rw [hb2def, removeStones_board, if_neg h]
    have hb2cap : ∀ i j, (i, j) ∈ captured → b2.board j i = 0 := by
      intro i j h
      rw [hb2def, removeStones_board, if_pos h]
    have hcapmem : ∀ c ∈ captured, b.board c.2 c.1 = 3 - p ∧ c ≠ (x, y) := by
      intro c hc
      rw [hcapiff c] at hc
      obtain ⟨nb, hnbmem, hnbcol, hdead, hreach⟩ := hc
      have hccol : b1.board c.2 c.1 = 3 - p := hreach.color hnbcol
      have hcxy : c ≠ (x, y) := by
        intro hceq
        rw [hceq] at hccol
        have : p = 3 - p := hxy1.symm.trans hccol
        omega
      refine ⟨?_, hcxy⟩
      rw [← hb1at c.1 c.2 ?_]
      · exact hccol
      · intro hcon
        exact hcxy (Prod.ext hcon.1 hcon.2)
    have hxyncap : (x, y) ∉ captured := fun h => (hcapmem _ h).2 rfl
    have hxy2 : b2.board y x = p := (hb2at x y hxyncap).trans hxy1
    have hPiff : ∀ i j, b2.board j i = p ↔ ((i, j) = (x, y) ∨ b.board j i = p) := by
      intro i j
      by_cases hc : (i, j) ∈ captured
      · have h0 : b2.board j i = 0 := hb2cap i j hc
        have hcol := (hcapmem _ hc).1
        rw [h0]
        constructor
        · intro h
          exact absurd h.symm hpne
        · rintro (heq | h)
          · exact absurd (heq ▸ hc) hxyncap
          · rw [hcol] at h
            omega
      · rw [hb2at i j hc]
        by_cases hcxy : (i, j) = (x, y)
        · have h1 : i = x := congrArg Prod.fst hcxy
          have h2 : j = y := congrArg Prod.snd hcxy
          subst h1; subst h2
          rw [hxy1]
          simp
        · rw [hb1at i j (fun hcon => hcxy (Prod.ext hcon.1 hcon.2))]
          constructor
          · exact Or.inr
          · rintro (heq | h)
            · exact absurd heq hcxy
            · exact h
    have hQiff1 : ∀ i j, b1.board j i = 3 - p ↔ b.board j i = 3 - p := by
      intro i j
      by_cases hcxy : i = x ∧ j = y
      · obtain ⟨rfl, rfl⟩ := hcxy
        rw [hxy1, hempty]
        omega
      · rw [hb1at i j hcxy]
    have hQ2iff : ∀ i j, b2.board j i = 3 - p ↔ (b.board j i = 3 - p ∧ (i, j) ∉ captured) := by
      intro i j
      by_cases hc : (i, j) ∈ captured
      · rw [hb2cap i j hc]
        constructor
        · intro h
          exact absurd h.symm hqne
        · rintro ⟨-, hcon⟩
          exact absurd hc hcon
      · rw [hb2at i j hc, hQiff1 i j]
        exact ⟨fun h => ⟨h, hc⟩, And.left⟩
    have hReach1q : ∀ s c : Cell, Reach b1 (3 - p) s c ↔ Reach b (3 - p) s c := by
      intro s c
      constructor
      · exact Reach.mono rfl fun i j h => (hQiff1 i j).1 h
      · exact Reach.transfer rfl fun i j => hQiff1 i j
    have hReachP_bup : ∀ s c : Cell, Reach b p s c → Reach b2 p s c := by
      intro s c h
      exact Reach.mono hsz2.symm (fun i j hh => (hPiff i j).2 (Or.inr hh)) h
    have hdisjoint : ∀ c : Cell, c.1 < b.size → c.2 < b.size → b.board c.2 c.1 = 3 - p →
        c ∉ captured → ∀ d, Reach b (3 - p) c d → d ∉ captured := by
      intro c hc1 hc2 hccol hcnc d hrd hdcap
      rw [hcapiff d] at hdcap
      obtain ⟨nb, hnbmem, hnbcol, hdead, hreachnbd⟩ := hdcap
      have hreach_b : Reach b (3 - p) (nb.1, nb.2) d := (hReach1q _ _).1 hreachnbd
      have h2 : Reach b (3 - p) (nb.1, nb.2) c :=
        hreach_b.trans (Reach.symm ⟨hc1, hc2⟩ hccol hrd)
      apply hcnc
      rw [hcapiff c]
      exact ⟨nb, hnbmem, hnbcol, hdead, (hReach1q _ _).2 h2⟩
    have hReachq_to_b2 : ∀ c : Cell, c.1 < b.size → c.2 < b.size →
        b.board c.2 c.1 = 3 - p → c ∉ captured →
        ∀ d, Reach b (3 - p) c d → Reach b2 (3 - p) c d := by
      intro c hc1 hc2 hccol hcnc d hrd
      induction hrd with
      | base => exact Reach.base
      | @step c' d' hr hnb hcol ih =>
        refine Reach.step ih ?_ ?_
        · rw [getNeighbors_size_eq hsz2]
          exact hnb
        · exact (hQ2iff d'.1 d'.2).2
            ⟨hcol, hdisjoint c hc1 hc2 hccol hcnc d' (Reach.step hr hnb hcol)⟩
    have hReach2p_to_b : ∀ c : Cell, ¬ Reach b2 p c (x, y) →
        ∀ d, Reach b2 p c d → Reach b p c d := by
      intro c hnc d hrd
      induction hrd with
      | base => exact Reach.base
      | @step c' d' hr hnb hcol ih =>
        rcases (hPiff d'.1 d'.2).1 hcol with heq | hcolb
        · exact absurd (heq ▸ Reach.step hr hnb hcol) hnc
        · refine Reach.step ih ?_ hcolb
          rw [← getNeighbors_size_eq hsz2]
          exact hnb
    intro cx hcx cy hcy
    have hcx' : cx < b.size := by rw [← hsz2]; exact hcx
    have hcy' : cy < b.size := by rw [← hsz2]; exact hcy
    constructor
    · -- colours stay in {0, 1, 2}
      by_cases hc : (cx, cy) ∈ captured
      · exact Or.inl (hb2cap cx cy hc)
      · rw [hb2at cx cy hc]
        by_cases hcxy : cx = x ∧ cy = y
        · obtain ⟨rfl, rfl⟩ := hcxy
          rw [hxy1]
          omega
        · rw [hb1at cx cy hcxy]
          exact (hg cx hcx' cy hcy').1
    · -- every group keeps a liberty
      intro hr0
      rw [libs_ne_nil_iff hcx hcy rfl hr0]
      have hrval : b2.board cy cx = p ∨ b2.board cy cx = 3 - p := by
        by_cases hc : (cx, cy) ∈ captured
        · exact absurd (hb2cap cx cy hc) hr0
        · have hb2eq := hb2at cx cy hc
          by_cases hcxy : cx = x ∧ cy = y
          · obtain ⟨rfl, rfl⟩ := hcxy
            exact Or.inl (hb2eq.trans hxy1)
          · have hcols := (hg cx hcx' cy hcy').1
            rw [hb1at cx cy hcxy] at hb2eq
            rw [hb2eq] at hr0 ⊢
            omega
      rcases hrval with hrp | hrq
      · -- the cell belongs to the mover's colour
        rw [hrp]
        by_cases hconn : Reach b2 p (cx, cy) (x, y)
        · by_cases hcapnil : captured = []
          · have hb2b1 : b2 = b1 := by rw [hb2def, hcapnil]; rfl
            have hlibs : (b1.getGroupAndLiberties x y p).2 ≠ [] := by
              rcases hOr with hc | hlibs
              · exact absurd hcapnil hc
              · exact hlibs
            obtain ⟨e, he0, d, hrd, hnbd⟩ := (@libs_ne_nil_iff b1 x y p hx hy hxy1 hpne).1 hlibs
            rw [hb2b1] at hconn ⊢
            exact ⟨e, he0, d, hconn.trans hrd, hnbd⟩
          · obtain ⟨c0, hc0⟩ := List.exists_mem_of_ne_nil _ hcapnil
            have hc0' := hc0
            rw [hcapiff c0] at hc0'
            obtain ⟨nb, hnbmem, hnbcol, hdead, -⟩ := hc0'
            have hnbcap : nb ∈ captured := by
              rw [hcapiff nb]
              exact ⟨nb, hnbmem, hnbcol, hdead, Reach.base⟩
            refine ⟨nb, hb2cap nb.1 nb.2 hnbcap, (x, y), hconn, ?_⟩
            rw [getNeighbors_size_eq hsz2]
            exact hnbmem
        · have hcxyne : ¬(cx = x ∧ cy = y) := by
            rintro ⟨rfl, rfl⟩
            exact hconn Reach.base
          have hnc : (cx, cy) ∉ captured := by
            intro h
            exact hr0 (hb2cap cx cy h)
          have hbcol : b.board cy cx = p := by
            rw [← hb1at cx cy hcxyne, ← hb2at cx cy hnc]
            exact hrp
          have hlibs := (hg cx hcx' cy hcy').2 (by rw [hbcol]; exact hpne)
          rw [hbcol] at hlibs
          obtain ⟨e, he0, d, hrd, hnbd⟩ := (libs_ne_nil_iff hcx' hcy' hbcol hpne).1 hlibs
          by_cases hexy : e = (x, y)
          · exfalso
            apply hconn
            refine Reach.step (hReachP_bup _ _ hrd) ?_ ?_
            · rw [getNeighbors_size_eq hsz2]
              subst hexy
              exact hnbd
            · subst hexy
              exact hxy2
          · refine ⟨e, ?_, d, hReachP_bup _ _ hrd, ?_⟩
            · by_cases hec : e ∈ captured
              · exact hb2cap e.1 e.2 hec
              · rw [hb2at e.1 e.2 hec,
                  hb1at e.1 e.2 (fun hcon => hexy (Prod.ext hcon.1 hcon.2))]
                exact he0
            · rw [getNeighbors_size_eq hsz2]
              exact hnbd
      · -- the cell belongs to the opponent
        rw [hrq]
        have hnc : (cx, cy) ∉ captured := by
          intro h
          exact hr0 (hb2cap cx cy h)
        have hcxyne : ¬(cx = x ∧ cy = y) := by
          rintro ⟨rfl, rfl⟩
          exact hqp (hxy2.symm.trans hrq).symm
        have hbcol : b.board cy cx = 3 - p := by
          rw [← hb1at cx cy hcxyne, ← hb2at cx cy hnc]
          exact hrq
        have hlibs := (hg cx hcx' cy hcy').2 (by rw [hbcol]; exact hqne)
        rw [hbcol] at hlibs
        by_cases hgood : ∃ e, libertyOf b (3 - p) (cx, cy) e ∧ e ≠ (x, y)
        · obtain ⟨e, ⟨he0, d, hrd, hnbd⟩, hexy⟩ := hgood
          refine ⟨e, ?_, d, hReachq_to_b2 (cx, cy) hcx' hcy' hbcol hnc d hrd, ?_⟩
          · by_cases hec : e ∈ captured
            · exact hb2cap e.1 e.2 hec
            · rw [hb2at e.1 e.2 hec,
                hb1at e.1 e.2 (fun hcon => hexy (Prod.ext hcon.1 hcon.2))]
              exact he0
          · rw [getNeighbors_size_eq hsz2]
            exact hnbd
        · exfalso
          push_neg at hgood
          obtain ⟨e, he⟩ := (libs_ne_nil_iff hcx' hcy' hbcol hqne).1 hlibs
          have hexy : e = (x, y) := hgood e he
          obtain ⟨he0, d, hrd, hnbd⟩ := he
          subst hexy
          have hdb : d.1 < b.size ∧ d.2 < b.size := hrd.inBounds ⟨hcx', hcy'⟩
          have hdmem : d ∈ b.getNeighbors x y := getNeighbors_symm hdb.1 hdb.2 hnbd
          have hdcolb : b.board d.2 d.1 = 3 - p := hrd.color hbcol
          have hdcol1 : b1.board d.2 d.1 = 3 - p := (hQiff1 d.1 d.2).2 hdcolb
          have hdead : ∀ e', ¬ libertyOf b1 (3 - p) (d.1, d.2) e' := by
            rintro e' ⟨he'0, d', hrd', hnbd'⟩
            have he'xy : ¬(e'.1 = x ∧ e'.2 = y) := by
              rintro ⟨h1, h2⟩
              have : b1.board y x = 0 := by rw [← h1, ← h2]; exact he'0
              rw [hxy1] at this
              exact hpne this
            have hrcd' : Reach b (3 - p) (cx, cy) d' :=
              hrd.trans ((hReach1q _ _).1 hrd')
            have hlib : libertyOf b (3 - p) (cx, cy) e' := by
              refine ⟨?_, d', hrcd', hnbd'⟩
              rw [← hb1at e'.1 e'.2 he'xy]
              exact he'0
            have := hgood e' hlib
            rw [this] at he'xy
            exact he'xy ⟨rfl, rfl⟩
          apply hnc
          rw [hcapiff (cx, cy)]
          refine ⟨d, hdmem, hdcol1, hdead, ?_⟩
          exact (hReach1q _ _).2 (Reach.symm ⟨hcx', hcy'⟩ hbcol hrd)

/-! ### The liberty invariant from the empty board (claim C6) -/

theorem goodBoard_empty (n : Nat) : goodBoard (GoBoard.empty n) := by
  intro x _ y _
  exact ⟨Or.inl rfl, fun h => absurd rfl h⟩

theorem runMoves_goodBoard : ∀ (ms : List (Nat × Nat × Nat)) (b : GoBoard),
    (∀ m ∈ ms, m.2.2 = 1 ∨ m.2.2 = 2) → goodBoard b → goodBoard (runMoves b ms)
  | [], _, _, hb => hb
  | m :: rest, b, hms, hb => by
    have hstep := @playMove_preserves_goodBoard b m.1 m.2.1 m.2.2 hb (hms m (by simp))
    have hunfold : runMoves b (m :: rest) =
        runMoves (b.playMove m.1 m.2.1 m.2.2).1 rest := rfl
    rw [hunfold]
    exact runMoves_goodBoard rest _ (fun m' hm' => hms m' (List.mem_cons_of_mem _ hm')) hstep

/-- Claim C6: starting from an all-empty board, after every sequence of
`play_move` calls (with the two real player values 1 and 2), every stone
group remaining on the board has at least one liberty. -/
theorem c6_no_dead_groups (n : Nat) (ms : List (Nat × Nat × Nat))
    (hms : ∀ m ∈ ms, m.2.2 = 1 ∨ m.2.2 = 2) :
    noDeadGroups (runMoves (GoBoard.empty n) ms) := by
  intro x hx y hy h0
  exact ((runMoves_goodBoard ms _ hms (goodBoard_empty n)) x hx y hy).2 h0

/-- Witness for C6: a concrete two-move game on a 3×3 board. -/
theorem c6_no_dead_groups_witness :
    noDeadGroups (runMoves (GoBoard.empty 3) [(1, 1, 1), (0, 1, 2)]) :=
  c6_no_dead_groups 3 [(1, 1, 1), (0, 1, 2)] (by decide)

/-! ### Rejection conditions of `play_move` (claim C1) -/

/-- Claim C1 (amended): `play_move` returns an empty capture list and
leaves the grid unchanged exactly when the target cell is occupied, the
coordinates are out of bounds, **or** the placement is a suicide (it
captures nothing and leaves the placed stone's own group with zero
liberties) — the suicide check of `is_valid_move` does reject
self-capturing placements. -/
theorem c1_reject_iff (b : GoBoard) (x y p : Nat) (hp : p = 1 ∨ p = 2) :
    ((b.playMove x y p).2 = [] ∧ ∀ i j, (b.playMove x y p).1.board j i = b.board j i) ↔
      (¬(x < b.size ∧ y < b.size) ∨ b.board y x ≠ 0 ∨
        ((b.setCell x y p).getCapturedStones x y p = [] ∧
         ((b.setCell x y p).getGroupAndLiberties x y p).2 = [])) := by
  by_cases hv : b.isValidMove x y p = true
  · rw [playMove_of_valid hv]
    obtain ⟨hx, hy, hempty, hOr⟩ := isValidMove_true_iff.1 hv
    constructor
    · rintro ⟨hcap, hgrid⟩
      exfalso
      have hcap' : (b.setCell x y p).getCapturedStones x y p = [] := hcap
      have hgx := hgrid x y
      have h1 : ((b.setCell x y p).removeStones
          ((b.setCell x y p).getCapturedStones x y p)).board y x = (b.setCell x y p).board y x := by
        rw [hcap']
        rfl
      have h2 : (b.setCell x y p).board y x = p := by rw [setCell_board]; simp
      rw [h1, h2, hempty] at hgx
      omega
    · rintro (h | h | h)
      · exact absurd ⟨hx, hy⟩ h
      · exact absurd hempty h
      · rcases hOr with hc | hl
        · exact absurd h.1 hc
        · exact absurd h.2 hl
  · rw [playMove_of_invalid hv]
    constructor
    · intro _
      rw [isValidMove_true_iff] at hv
      push_neg at hv
      by_cases hb : x < b.size ∧ y < b.size
      · by_cases h0 : b.board y x = 0
        · exact Or.inr (Or.inr (hv hb.1 hb.2 h0))
        · exact Or.inr (Or.inl h0)
      · exact Or.inl hb
    · intro _
      exact ⟨rfl, fun i j => rfl⟩

/-- Witness for C1: the concrete suicide position; the right-hand side
of the amended equivalence is discharged by evaluation. -/
theorem c1_reject_iff_witness :
    (suicideBoard.playMove 0 0 2).2 = [] ∧
    ∀ i j, (suicideBoard.playMove 0 0 2).1.board j i = suicideBoard.board j i :=
  (c1_reject_iff suicideBoard 0 0 2 (Or.inr rfl)).mpr (Or.inr (Or.inr (by decide)))

/-- Counterexample to C1 as stated: White's play at the empty in-bounds
corner `(0,0)` of `suicideBoard` is a self-capturing placement (it
captures nothing and its own group would have no liberties), yet
`play_move` rejects it — empty capture list and unchanged grid — even
though the cell is neither occupied nor out of bounds. -/
theorem c1_counterexample :
    0 < suicideBoard.size ∧ suicideBoard.board 0 0 = 0 ∧
    (suicideBoard.setCell 0 0 2).getCapturedStones 0 0 2 = [] ∧
    ((suicideBoard.setCell 0 0 2).getGroupAndLiberties 0 0 2).2 = [] ∧
    (suicideBoard.playMove 0 0 2).2 = [] ∧
    ∀ i j, (suicideBoard.playMove 0 0 2).1.board j i = suicideBoard.board j i := by
  have hv : ¬ suicideBoard.isValidMove 0 0 2 = true := by decide
  refine ⟨by decide, by decide, by decide, by decide, ?_, ?_⟩
  · rw [playMove_of_invalid hv]
  · rw [playMove_of_invalid hv]
    exact fun i j => rfl

/-! ### Soundness of the capture list (claim C4) -/

/-- Claim C4 (amended): every coordinate in the capture list returned by
`play_move` held the opposing colour immediately before the call and is
empty immediately after it; but the list may mention the same coordinate
several times (once per adjacent cell through which its group touches
the placed stone), so `captured_count` counts with that multiplicity. -/
theorem c4_captures_sound (b : GoBoard) (x y p : Nat) (hp : p = 1 ∨ p = 2) :
    ∀ c ∈ (b.playMove x y p).2,
      b.board c.2 c.1 = 3 - p ∧ (b.playMove x y p).1.board c.2 c.1 = 0 := by
  intro c hc
  by_cases hv : b.isValidMove x y p = true
  · rw [playMove_of_valid hv] at hc ⊢
    obtain ⟨hx, hy, hempty, -⟩ := isValidMove_true_iff.1 hv
    have hqne : 3 - p ≠ 0 := by omega
    constructor
    · have hc' := hc
      rw [@mem_getCapturedStones_iff (b.setCell x y p) x y p c hx hy hqne] at hc'
      obtain ⟨nb, hnbmem, hnbcol, -, hreach⟩ := hc'
      have hccol : (b.setCell x y p).board c.2 c.1 = 3 - p := hreach.color hnbcol
      have hcne : ¬(c.2 = y ∧ c.1 = x) := by
        rintro ⟨h2, h1⟩
        rw [h1, h2, setCell_board] at hccol
        simp at hccol
        omega
      rw [setCell_board, if_neg hcne] at hccol
      exact hccol
    · rw [removeStones_board, if_pos (by simpa using hc)]
  · rw [playMove_of_invalid hv] at hc
    exact absurd hc (List.not_mem_nil c)

/-- Witness for C4: the white stone at `(0,0)` of `doubleCaptureBoard`
is captured by Black's play at `(1,1)`: white before, empty after. -/
theorem c4_captures_sound_witness :
    doubleCaptureBoard.board 0 0 = 2 ∧
    (doubleCaptureBoard.playMove 1 1 1).1.board 0 0 = 0 :=
  c4_captures_sound doubleCaptureBoard 1 1 1 (Or.inl rfl) (0, 0) (by decide)

/-- Counterexample to C4 as stated: Black's capture at `(1,1)` on
`doubleCaptureBoard` removes a three-stone White group that touches the
placed stone at two cells, so the returned capture list has six entries
(each coordinate listed twice) and `captured_count = 6` differs from the
three distinct stones actually removed. -/
theorem c4_counterexample :
    (doubleCaptureBoard.playMove 1 1 1).2.length = 6 ∧
    ¬ (doubleCaptureBoard.playMove 1 1 1).2.Nodup ∧
    (doubleCaptureBoard.playMove 1 1 1).2.dedup.length = 3 := by decide

/-! ### Classifier priority (claim C2) -/

/-- Claim C2: `classify_move` tests its conditions in the strict order
captured > 0, atari, cut, connection, atari threat, contact; the first
matching rule fixes the type, and in particular a move satisfying both
the capture and the contact condition is typed `Capture`, never
`Contact Move`. -/
theorem c2_classifier_priority (n : Nat) (b : GoBoard) (x y i : Nat)
    (rep : GameAnalyzer.Report) (p : Nat) :
    (rep.capturedCount > 0 →
      (GameAnalyzer.classifyMove n b x y i rep p).1 = "Capture") ∧
    (rep.capturedCount = 0 → rep.atari ≠ [] →
      (GameAnalyzer.classifyMove n b x y i rep p).1 = "Atari") ∧
    (rep.capturedCount = 0 → rep.atari = [] → rep.isCut = true →
      (GameAnalyzer.classifyMove n b x y i rep p).1 = "Cut") ∧
    (rep.capturedCount = 0 → rep.atari = [] → rep.isCut = false → rep.isConnection = true →
      (GameAnalyzer.classifyMove n b x y i rep p).1 = "Connection") ∧
    (rep.capturedCount = 0 → rep.atari = [] → rep.isCut = false → rep.isConnection = false →
      rep.atariThreats ≠ [] →
      (GameAnalyzer.classifyMove n b x y i rep p).1 = "Atari Threat") ∧
    (rep.capturedCount = 0 → rep.atari = [] → rep.isCut = false → rep.isConnection = false →
      rep.atariThreats = [] → rep.isContact = true →
      (GameAnalyzer.classifyMove n b x y i rep p).1 = "Contact Move") ∧
    (rep.capturedCount > 0 → rep.isContact = true →
      (GameAnalyzer.classifyMove n b x y i rep p).1 = "Capture" ∧
      (GameAnalyzer.classifyMove n b x y i rep p).1 ≠ "Contact Move") := by
  refine ⟨?_, ?_, ?_, ?_, ?_, ?_, ?_⟩
  · intro h
    simp [GameAnalyzer.classifyMove, h]
  · intro h0 h1
    simp [GameAnalyzer.classifyMove, h0, h1]
  · intro h0 h1 h2
    simp [GameAnalyzer.classifyMove, h0, h1, h2]
  · intro h0 h1 h2 h3
    simp [GameAnalyzer.classifyMove, h0, h1, h2, h3]
  · intro h0 h1 h2 h3 h4
    simp [GameAnalyzer.classifyMove, h0, h1, h2, h3, h4]
  · intro h0 h1 h2 h3 h4 h5
    simp [GameAnalyzer.classifyMove, h0, h1, h2, h3, h4, h5]
  · intro h0 h1
    have hcap : (GameAnalyzer.classifyMove n b x y i rep p).1 = "Capture" := by
      simp [GameAnalyzer.classifyMove, h0]
    refine ⟨hcap, ?_⟩
    rw [hcap]
    decide

/-- Witness for C2: a synthetic report where both the capture and the
contact condition hold is typed `Capture`. -/
theorem c2_classifier_priority_witness :
    (GameAnalyzer.classifyMove 19 (GoBoard.empty 19) 3 3 5
      { capturedCount := 1, isContact := true } 1).1 = "Capture" ∧
    (GameAnalyzer.classifyMove 19 (GoBoard.empty 19) 3 3 5
      { capturedCount := 1, isContact := true } 1).1 ≠ "Contact Move" :=
  (c2_classifier_priority 19 (GoBoard.empty 19) 3 3 5
    { capturedCount := 1, isContact := true } 1).2.2.2.2.2.2 (by decide) (by decide)

/-! ### Opening labels and their index window (claim C10) -/

theorem isLargeEnclosure_eq {b : GoBoard} {x y p : Nat} {s : String}
    (h : GameAnalyzer.isLargeEnclosure b x y p = some s) : s = "Large Enclosure" := by
  rw [GameAnalyzer.isLargeEnclosure] at h
  rcases hd : (GameAnalyzer.distanceToNearestStonesSq b x y p).1 with _ | d
  · rw [hd] at h
    exact absurd h (by simp)
  · rw [hd] at h
    have h' : (if d ≠ 0 ∧ d = 9 then (some "Large Enclosure" : Option String) else none) =
        some s := h
    by_cases hc : d ≠ 0 ∧ d = 9
    · rw [if_pos hc] at h'
      exact (Option.some_inj.1 h').symm
    · rw [if_neg hc] at h'
      exact absurd h' (by simp)

set_option maxHeartbeats 3200000 in
/-- Case analysis on the result label of `classify_move`: the complete
list of branch outcomes together with the branch conditions the claims
need. -/
theorem classify_label_cases (n : Nat) (b : GoBoard) (x y i : Nat)
    (rep : GameAnalyzer.Report) (p : Nat) (s : String)
    (hs : (GameAnalyzer.classifyMove n b x y i rep p).1 = s) :
    s = "Capture" ∨ s = "Atari" ∨ s = "Cut" ∨ s = "Connection" ∨ s = "Atari Threat" ∨
    s = "Contact Move" ∨
    ((n = 19 ∧ i < 20) ∧ (s = "Star Point" ∨ s = "3-3 Point" ∨ s = "3-4 Point")) ∨
    ((n = 19 ∧ i < 20 ∧ i = 0) ∧ s = "First Corner Play") ∨
    ((GameAnalyzer.isCornerEnclosure n b x y p).isSome ∧
      (s = "Large Enclosure" ∨ s = "Corner Enclosure")) ∨
    (GameAnalyzer.isCornerEnclosure n b x y p = none ∧
      ((rep.isSmallNight.isSome ∧ s = "Small Knight") ∨
       (rep.isSmallNight = none ∧ rep.isOneSpaceJump.isSome ∧ s = "One-Space Jump") ∨
       (rep.isSmallNight = none ∧ rep.isOneSpaceJump = none ∧ rep.isTwoSpaceJump.isSome ∧
         s = "Two-Space Jump") ∨
       (rep.isCornerPlay = true ∧ s = "Corner Play") ∨ s = "Normal Move")) := by
  unfold GameAnalyzer.classifyMove at hs
  by_cases h1 : rep.capturedCount > 0
  · rw [if_pos h1] at hs
    exact Or.inl hs.symm
  rw [if_neg h1] at hs
  by_cases h2 : rep.atari ≠ []
  · rw [if_pos h2] at hs
    exact Or.inr (Or.inl hs.symm)
  rw [if_neg h2] at hs
  by_cases h3 : rep.isCut = true
  · rw [if_pos h3] at hs
    exact Or.inr (Or.inr (Or.inl hs.symm))
  rw [if_neg h3] at hs
  by_cases h4 : rep.isConnection = true
  · rw [if_pos h4] at hs
    exact Or.inr (Or.inr (Or.inr (Or.inl hs.symm)))
  rw [if_neg h4] at hs
  by_cases h5 : rep.atariThreats ≠ []
  · rw [if_pos h5] at hs
    exact Or.inr (Or.inr (Or.inr (Or.inr (Or.inl hs.symm))))
  rw [if_neg h5] at hs
  by_cases h6 : rep.isContact = true
  · rw [if_pos h6] at hs
    exact Or.inr (Or.inr (Or.inr (Or.inr (Or.inr (Or.inl hs.symm)))))
  rw [if_neg h6] at hs
  by_cases h7 : n = 19 ∧ i < 20 ∧ (x, y) ∈ GameAnalyzer.starPoints
  · rw [if_pos h7] at hs
    exact Or.inr (Or.inr (Or.inr (Or.inr (Or.inr (Or.inr
      (Or.inl ⟨⟨h7.1, h7.2.1⟩, Or.inl hs.symm⟩))))))
  rw [if_neg h7] at hs
  by_cases h8 : n = 19 ∧ i < 20 ∧ (x, y) ∈ GameAnalyzer.threeThreePoints
  · rw [if_pos h8] at hs
    exact Or.inr (Or.inr (Or.inr (Or.inr (Or.inr (Or.inr
      (Or.inl ⟨⟨h8.1, h8.2.1⟩, Or.inr (Or.inl hs.symm)⟩))))))
  rw [if_neg h8] at hs
  by_cases h9 : n = 19 ∧ i < 20 ∧ (x, y) ∈ GameAnalyzer.threeFourPoints
  · rw [if_pos h9] at hs
    exact Or.inr (Or.inr (Or.inr (Or.inr (Or.inr (Or.inr
      (Or.inl ⟨⟨h9.1, h9.2.1⟩, Or.inr (Or.inr hs.symm)⟩))))))
  rw [if_neg h9] at hs
  by_cases h10 : n = 19 ∧ i < 20 ∧ i = 0
  · rw [if_pos h10] at hs
    exact Or.inr (Or.inr (Or.inr (Or.inr (Or.inr (Or.inr (Or.inr
      (Or.inl ⟨h10, hs.symm⟩)))))))
  rw [if_neg h10] at hs
  cases hce : GameAnalyzer.isCornerEnclosure n b x y p with
  | some s0 =>
    rw [hce] at hs
    cases hle : GameAnalyzer.isLargeEnclosure b x y p with
    | some s2 =>
      rw [hle] at hs
      have hs2 : s2 = s := hs
      refine Or.inr (Or.inr (Or.inr (Or.inr (Or.inr (Or.inr (Or.inr (Or.inr
        (Or.inl ⟨rfl, Or.inl ?_⟩))))))))
      rw [← hs2]
      exact isLargeEnclosure_eq hle
    | none =>
      rw [hle] at hs
      exact Or.inr (Or.inr (Or.inr (Or.inr (Or.inr (Or.inr (Or.inr (Or.inr
        (Or.inl ⟨rfl, Or.inr hs.symm⟩))))))))
  | none =>
    rw [hce] at hs
    refine Or.inr (Or.inr (Or.inr (Or.inr (Or.inr (Or.inr (Or.inr (Or.inr (Or.inr
      ⟨rfl, ?_⟩))))))))
    have hs' : (if rep.isSmallNight.isSome then (("Small Knight" : String), (none : Option String))
        else if rep.isOneSpaceJump.isSome then ("One-Space Jump", none)
        else if rep.isTwoSpaceJump.isSome then ("Two-Space Jump", none)
        else if rep.isCornerPlay then ("Corner Play", none)
        else ("Normal Move", none)).1 = s := hs
    by_cases g1 : rep.isSmallNight.isSome
    · rw [if_pos g1] at hs'
      exact Or.inl ⟨g1, hs'.symm⟩
    rw [if_neg g1] at hs'
    by_cases g2 : rep.isOneSpaceJump.isSome
    · rw [if_pos g2] at hs'
      exact Or.inr (Or.inl ⟨Option.not_isSome_iff_eq_none.1 g1, g2, hs'.symm⟩)
    rw [if_neg g2] at hs'
    by_cases g3 : rep.isTwoSpaceJump.isSome
    · rw [if_pos g3] at hs'
      exact Or.inr (Or.inr (Or.inl ⟨Option.not_isSome_iff_eq_none.1 g1,
        Option.not_isSome_iff_eq_none.1 g2, g3, hs'.symm⟩))
    rw [if_neg g3] at hs'
    by_cases g4 : rep.isCornerPlay = true
    · rw [if_pos g4] at hs'
      exact Or.inr (Or.inr (Or.inr (Or.inl ⟨g4, hs'.symm⟩)))
    rw [if_neg g4] at hs'
    exact Or.inr (Or.inr (Or.inr (Or.inr hs'.symm)))

/-- Claim C10: on any inputs, `classify_move` can produce the labels
`Star Point`, `3-3 Point`, `3-4 Point` and `First Corner Play` only when
the board size is 19 and the 0-based move index is below 20, and it
produces `First Corner Play` only at move index 0 (no other state — the
player, corner membership, or earlier corner plays — is consulted). -/
theorem c10_opening_labels (n : Nat) (b : GoBoard) (x y i : Nat)
    (rep : GameAnalyzer.Report) (p : Nat) :
    (((GameAnalyzer.classifyMove n b x y i rep p).1 = "Star Point" ∨
      (GameAnalyzer.classifyMove n b x y i rep p).1 = "3-3 Point" ∨
      (GameAnalyzer.classifyMove n b x y i rep p).1 = "3-4 Point" ∨
      (GameAnalyzer.classifyMove n b x y i rep p).1 = "First Corner Play") →
      n = 19 ∧ i < 20) ∧
    ((GameAnalyzer.classifyMove n b x y i rep p).1 = "First Corner Play" → i = 0) := by
  constructor
  · rintro (h | h | h | h) <;>
    · have hc := classify_label_cases n b x y i rep p _ h
      simp at hc
      first
        | exact hc
        | exact ⟨hc.1, hc.2.1⟩
  · intro h
    have hc := classify_label_cases n b x y i rep p _ h
    simp at hc
    exact hc.2.2

/-- Witness for C10: on a 19×19 board, the first move at the
non-corner, non-special point `(10, 3)` is typed `First Corner Play`. -/
theorem c10_opening_labels_witness : (19 = 19 ∧ 0 < 20) ∧ (0 = 0) :=
  ⟨(c10_opening_labels 19 (GoBoard.empty 19) 10 3 0 {} 1).1
      (Or.inr (Or.inr (Or.inr (by decide)))),
   (c10_opening_labels 19 (GoBoard.empty 19) 10 3 0 {} 1).2 (by decide)⟩

/-! ### Pass records (claim C9) -/

/-- The pass branch of the analyze loop: type `Pass`, board and
previous-placement state untouched. -/
theorem analyzeMoveStep_pass (n : Nat) (b : GoBoard) (pB pW : Option Cell) (i : Nat)
    (mv : GameAnalyzer.Move) (hpass : mv.x = none ∨ mv.y = none) :
    (GameAnalyzer.analyzeMoveStep n b pB pW i mv).1.type = "Pass" ∧
    (GameAnalyzer.analyzeMoveStep n b pB pW i mv).2.1 = b ∧
    (GameAnalyzer.analyzeMoveStep n b pB pW i mv).2.2.1 = pB ∧
    (GameAnalyzer.analyzeMoveStep n b pB pW i mv).2.2.2 = pW := by
  rcases hx : mv.x with _ | xv <;> rcases hy : mv.y with _ | yv
  · exact ⟨by simp [GameAnalyzer.analyzeMoveStep, hx, hy], by simp [GameAnalyzer.analyzeMoveStep, hx, hy],
      by simp [GameAnalyzer.analyzeMoveStep, hx, hy], by simp [GameAnalyzer.analyzeMoveStep, hx, hy]⟩
  · exact ⟨by simp [GameAnalyzer.analyzeMoveStep, hx, hy], by simp [GameAnalyzer.analyzeMoveStep, hx, hy],
      by simp [GameAnalyzer.analyzeMoveStep, hx, hy], by simp [GameAnalyzer.analyzeMoveStep, hx, hy]⟩
  · exact ⟨by simp [GameAnalyzer.analyzeMoveStep, hx, hy], by simp [GameAnalyzer.analyzeMoveStep, hx, hy],
      by simp [GameAnalyzer.analyzeMoveStep, hx, hy], by simp [GameAnalyzer.analyzeMoveStep, hx, hy]⟩
  · rw [hx, hy] at hpass
    rcases hpass with h | h <;> exact absurd h (by simp)

/-- Claim C9: processing a Pass record emits a report of type `Pass`,
does not touch the board, and leaves both players' previous-placement
coordinates unchanged, so the next placement measures its distance from
the same player's last actual placement. -/
theorem c9_pass (n : Nat) (b : GoBoard) (pB pW : Option Cell) (i : Nat)
    (mv : GameAnalyzer.Move) (hpass : mv.x = none ∨ mv.y = none) :
    (GameAnalyzer.analyzeMoveStep n b pB pW i mv).1.type = "Pass" ∧
    (GameAnalyzer.analyzeMoveStep n b pB pW i mv).2.1 = b ∧
    (GameAnalyzer.analyzeMoveStep n b pB pW i mv).2.2.1 = pB ∧
    (GameAnalyzer.analyzeMoveStep n b pB pW i mv).2.2.2 = pW :=
  analyzeMoveStep_pass n b pB pW i mv hpass

/-- Witness for C9: a concrete pass record in mid-state. -/
theorem c9_pass_witness :
    (GameAnalyzer.analyzeMoveStep 9 suicideBoard (some (1, 0)) none 3
      { player := .W, x := none, y := none }).1.type = "Pass" ∧
    (GameAnalyzer.analyzeMoveStep 9 suicideBoard (some (1, 0)) none 3
      { player := .W, x := none, y := none }).2.1 = suicideBoard ∧
    (GameAnalyzer.analyzeMoveStep 9 suicideBoard (some (1, 0)) none 3
      { player := .W, x := none, y := none }).2.2.1 = some (1, 0) ∧
    (GameAnalyzer.analyzeMoveStep 9 suicideBoard (some (1, 0)) none 3
      { player := .W, x := none, y := none }).2.2.2 = none :=
  c9_pass 9 suicideBoard (some (1, 0)) none 3 { player := .W, x := none, y := none }
    (Or.inl rfl)

/-! ### Non-19 boards never get opening or shape labels (claim C5) -/

theorem isCornerEnclosure_non19 {n : Nat} (hn : n ≠ 19) (b : GoBoard) (x y p : Nat) :
    GameAnalyzer.isCornerEnclosure n b x y p = none := by
  rw [GameAnalyzer.isCornerEnclosure, if_pos hn]

theorem isSmallNight_non19 {n : Nat} (hn : n ≠ 19) (b : GoBoard) (x y p : Nat) :
    GameAnalyzer.isSmallNight n b x y p = none := by
  rw [GameAnalyzer.isSmallNight, if_pos hn]

theorem isOneSpaceJump_non19 {n : Nat} (hn : n ≠ 19) (b : GoBoard) (x y p : Nat) :
    GameAnalyzer.isOneSpaceJump n b x y p = none := by
  rw [GameAnalyzer.isOneSpaceJump, if_pos hn]

theorem isTwoSpaceJump_non19 {n : Nat} (hn : n ≠ 19) (b : GoBoard) (x y p : Nat) :
    GameAnalyzer.isTwoSpaceJump n b x y p = none := by
  rw [GameAnalyzer.isTwoSpaceJump, if_pos hn]

theorem placeStep_type_non19 {n : Nat} (hn : n ≠ 19) (b : GoBoard)
    (pB pW : Option Cell) (i : Nat) (pl : GameAnalyzer.Player) (x y : Nat) :
    (GameAnalyzer.placeStep n b pB pW i pl x y).1.type ∈ non19Labels := by
  have hty : (GameAnalyzer.placeStep n b pB pW i pl x y).1.type =
      (GameAnalyzer.classifyMove n (b.playMove x y (GameAnalyzer.playerNum pl)).1 x y i
        (GameAnalyzer.placeRep n b pB pW i pl x y) (GameAnalyzer.playerNum pl)).1 := rfl
  have hcases := classify_label_cases n (b.playMove x y (GameAnalyzer.playerNum pl)).1 x y i
    (GameAnalyzer.placeRep n b pB pW i pl x y) (GameAnalyzer.playerNum pl) _ rfl
  rw [hty]
  rcases hcases with h | h | h | h | h | h | h | h | h | h
  · rw [h]; decide
  · rw [h]; decide
  · rw [h]; decide
  · rw [h]; decide
  · rw [h]; decide
  · rw [h]; decide
  · exact absurd h.1.1 hn
  · exact absurd h.1.1 hn
  · rw [isCornerEnclosure_non19 hn] at h
    exact absurd h.1 (by decide)
  · have hsn : (GameAnalyzer.placeRep n b pB pW i pl x y).isSmallNight = none :=
      isSmallNight_non19 hn _ _ _ _
    have hoj : (GameAnalyzer.placeRep n b pB pW i pl x y).isOneSpaceJump = none :=
      isOneSpaceJump_non19 hn _ _ _ _
    have htj : (GameAnalyzer.placeRep n b pB pW i pl x y).isTwoSpaceJump = none :=
      isTwoSpaceJump_non19 hn _ _ _ _
    rcases h.2 with h' | h' | h' | h' | h'
    · rw [hsn] at h'
      exact absurd h'.1 (by decide)
    · rw [hoj] at h'
      exact absurd h'.2.1 (by decide)
    · rw [htj] at h'
      exact absurd h'.2.2.1 (by decide)
    · rw [h'.2]; decide
    · rw [h']; decide

/-- Claim C5 (amended): on every board size other than 19, the star
point, 3-3, 3-4, first-corner, enclosure and shape labels are never
produced — but the generic `Corner Play` label still is, because the
`is_corner_play` fallback is not size-gated; every report's type on a
non-19 board is one of `Pass`, the six priority-one labels,
`Corner Play` or `Normal Move`.  (The empty 9×9 scenario at `(4,4)` is
typed `Corner Play`, not `Normal Move`; see the counterexample.) -/
theorem c5_non19_labels {n : Nat} (hn : n ≠ 19) :
    ∀ (moves : List GameAnalyzer.Move) (b : GoBoard) (pB pW : Option Cell) (i : Nat),
      ∀ rep ∈ GameAnalyzer.analyzeFrom n b pB pW i moves, rep.type ∈ non19Labels
  | [], _, _, _, _ => by
    intro rep hrep
    exact absurd hrep (List.not_mem_nil rep)
  | mv :: rest, b, pB, pW, i => by
    intro rep hrep
    have hrep' : rep = (GameAnalyzer.analyzeMoveStep n b pB pW i mv).1 ∨
        rep ∈ GameAnalyzer.analyzeFrom n
          (GameAnalyzer.analyzeMoveStep n b pB pW i mv).2.1
          (GameAnalyzer.analyzeMoveStep n b pB pW i mv).2.2.1
          (GameAnalyzer.analyzeMoveStep n b pB pW i mv).2.2.2 (i + 1) rest :=
      List.mem_cons.1 hrep
    rcases hrep' with rfl | hrest
    · rcases hmx : mv.x with _ | xv
      · rw [(analyzeMoveStep_pass n b pB pW i mv (Or.inl hmx)).1]
        decide
      rcases hmy : mv.y with _ | yv
      · rw [(analyzeMoveStep_pass n b pB pW i mv (Or.inr hmy)).1]
        decide
      · have hstep : GameAnalyzer.analyzeMoveStep n b pB pW i mv =
            GameAnalyzer.placeStep n b pB pW i mv.player xv yv := by
          rw [GameAnalyzer.analyzeMoveStep, hmx, hmy]
        rw [hstep]
        exact placeStep_type_non19 hn b pB pW i mv.player xv yv
    · exact c5_non19_labels hn rest _ _ _ _ rep hrest

/-- Witness for C5: the single-move 9×9 game; its one report's type is
among the allowed non-19 labels. -/
theorem c5_non19_labels_witness :
    ((GameAnalyzer.analyze 9 [{ player := .B, x := some 4, y := some 4 }]).getD 0 {}).type ∈
      non19Labels :=
  @c5_non19_labels 9 (by decide) [{ player := .B, x := some 4, y := some 4 }]
    (GoBoard.empty 9) none none 0 _ (by decide)

/-- Counterexample to C5 as stated: on an empty 9×9 board the first
move, Black at `(4,4)`, has `distance_from_center` 0, no captures and no
atari, but its type is `Corner Play` (the un-size-gated corner fallback
fires, since on a 9×9 board `(4,4)` lies in every 5×5 corner window),
not `Normal Move`. -/
theorem c5_counterexample :
    (GameAnalyzer.analyze 9 [{ player := .B, x := some 4, y := some 4 }]).length = 1 ∧
    ((GameAnalyzer.analyze 9 [{ player := .B, x := some 4, y := some 4 }]).getD 0 {}).type =
      "Corner Play" ∧
    ((GameAnalyzer.analyze 9 [{ player := .B, x := some 4, y := some 4 }]).getD 0 {}).type ≠
      "Normal Move" ∧
    ((GameAnalyzer.analyze 9 [{ player := .B, x := some 4, y := some 4 }]).getD 0
      {}).distFromCenterSq4 = some 0 ∧
    ((GameAnalyzer.analyze 9 [{ player := .B, x := some 4, y := some 4 }]).getD 0
      {}).captures = [] ∧
    ((GameAnalyzer.analyze 9 [{ player := .B, x := some 4, y := some 4 }]).getD 0
      {}).atari = [] := by decide

/-! ### The backend atari lists (claim C3) -/

theorem foldl_ext {α β : Type} {f : β → α → β} (g : β → α → β)
    (h : ∀ a c, f a c = g a c) :
    ∀ (l : List α) (a : β), l.foldl f a = l.foldl g a
  | [], _ => rfl
  | c :: l, a => by rw [List.foldl_cons, List.foldl_cons, h, foldl_ext g h l]

theorem foldl_filter_append {P : Cell → Prop} [DecidablePred P] :
    ∀ (l acc : List Cell),
      l.foldl (fun a c => if P c then a ++ [c] else a) acc
        = acc ++ l.filter fun c => decide (P c)
  | [], acc => by simp
  | c :: l, acc => by
    rw [List.foldl_cons, foldl_filter_append l]
    by_cases h : P c
    · rw [if_pos h]
      simp [List.filter_cons, h]
    · rw [if_neg h]
      simp [List.filter_cons, h]

theorem getNeighbors_nodup (b : GoBoard) (x y : Nat) : (b.getNeighbors x y).Nodup := by
  unfold GoBoard.getNeighbors
  split_ifs <;>
    simp [List.nodup_cons, List.mem_cons, List.mem_singleton, Prod.ext_iff] <;> omega

theorem getGroupAndLiberties_nodup (b : GoBoard) (x y p : Nat) (hp : p ≠ 0) :
    (b.getGroupAndLiberties x y p).1.Nodup ∧ (b.getGroupAndLiberties x y p).2.Nodup := by
  by_cases h : x < b.size ∧ y < b.size ∧ b.board y x = p
  · exact ⟨(getGroupAndLiberties_spec h.1 h.2.1 h.2.2 hp).2.2.1,
      (getGroupAndLiberties_spec h.1 h.2.1 h.2.2 hp).2.2.2⟩
  · rw [getGroupAndLiberties_eq_nil h]
    exact ⟨List.nodup_nil, List.nodup_nil⟩

theorem getGroup_libs_nodup (b : GoBoard) (x y : Nat) : (b.getGroup x y).2.1.Nodup := by
  unfold GoBoard.getGroup
  by_cases h : b.board y x = 0
  · simp [h]
  · simp only [if_neg h]
    exact (getGroupAndLiberties_nodup b x y _ h).2

theorem isAtari_eq_filter (b : GoBoard) (x y p : Nat) :
    GameAnalyzer.isAtari b x y p = (b.getNeighbors x y).filter fun c =>
      decide (b.board c.2 c.1 = 3 - p ∧ (b.getGroup c.1 c.2).2.1.length = 1) := by
  rw [GameAnalyzer.isAtari]
  rw [foldl_ext (fun acc c =>
    if b.board c.2 c.1 = 3 - p ∧ (b.getGroup c.1 c.2).2.1.length = 1 then acc ++ [c] else acc)]
  · exact foldl_filter_append _ []
  · intro a c
    by_cases h1 : b.board c.2 c.1 = 3 - p
    · by_cases h2 : (b.getGroup c.1 c.2).2.1.length = 1
      · simp [h1, h2]
      · simp [h1, h2]
    · simp [h1]

theorem detectAtariThreat_eq_filter (b : GoBoard) (x y p : Nat)
    (h2 : ((b.getGroup x y).2.1).length = 2) :
    GameAnalyzer.detectAtariThreat b x y p = ((b.getGroup x y).2.1).filter fun l =>
      decide (((b.setCell l.1 l.2 (3 - p)).getGroup x y).2.1.length = 1) := by
  rw [GameAnalyzer.detectAtariThreat]
  simp only [h2]
  rw [if_neg (by omega)]
  rw [foldl_ext (fun acc l =>
    if ((b.setCell l.1 l.2 (3 - p)).getGroup x y).2.1.length = 1 then acc ++ [l] else acc)]
  · exact foldl_filter_append _ []
  · intro a c
    rfl

theorem detectAtariThreat_eq_nil (b : GoBoard) (x y p : Nat)
    (h2 : ¬((b.getGroup x y).2.1).length = 2) :
    GameAnalyzer.detectAtariThreat b x y p = [] := by
  rw [GameAnalyzer.detectAtariThreat]
  simp only []
  rw [if_pos h2]

/-- Claim C3 (amended): in the backend analyzer the report's `atari`
list contains exactly the neighbouring **cells** of the placed stone
that hold an opposing stone whose group has exactly one liberty — one
entry per adjacent cell, so a group adjacent at several cells appears
once per such cell — and the `atari_threats` list contains exactly the
liberties of the placed stone's **own** group such that the group has
exactly two liberties and an opposing stone on that liberty would leave
it exactly one.  Adjacent opposing groups with two liberties are not
what `detect_atari_threat` reports. -/
theorem c3_atari_lists (b : GoBoard) (x y p : Nat) :
    (∀ c : Cell, c ∈ GameAnalyzer.isAtari b x y p ↔
      (c ∈ b.getNeighbors x y ∧ b.board c.2 c.1 = 3 - p ∧
        (b.getGroup c.1 c.2).2.1.length = 1)) ∧
    (GameAnalyzer.isAtari b x y p).Nodup ∧
    (∀ c : Cell, c ∈ GameAnalyzer.detectAtariThreat b x y p ↔
      ((b.getGroup x y).2.1.length = 2 ∧ c ∈ (b.getGroup x y).2.1 ∧
        ((b.setCell c.1 c.2 (3 - p)).getGroup x y).2.1.length = 1)) ∧
    (GameAnalyzer.detectAtariThreat b x y p).Nodup := by
  refine ⟨?_, ?_, ?_, ?_⟩
  · intro c
    rw [isAtari_eq_filter, List.mem_filter]
    simp [and_assoc]
  · rw [isAtari_eq_filter]
    exact (getNeighbors_nodup b x y).filter _
  · intro c
    by_cases h2 : ((b.getGroup x y).2.1).length = 2
    · rw [detectAtariThreat_eq_filter b x y p h2, List.mem_filter]
      simp [h2]
    · rw [detectAtariThreat_eq_nil b x y p h2]
      simp only [List.not_mem_nil, false_iff]
      rintro ⟨hcon, -⟩
      exact h2 hcon
  · by_cases h2 : ((b.getGroup x y).2.1).length = 2
    · rw [detectAtariThreat_eq_filter b x y p h2]
      exact (getGroup_libs_nodup b x y).filter _
    · rw [detectAtariThreat_eq_nil b x y p h2]
      exact List.nodup_nil

/-- Witness for C3 (amended): in the concrete 3×3 game, the fifth
report's `atari` entry `(0,1)` is exactly an adjacent white stone of a
one-liberty group. -/
theorem c3_atari_lists_witness :
    (0, 1) ∈ atariAfterBoard.getNeighbors 1 1 ∧
    atariAfterBoard.board 1 0 = 2 ∧
    (atariAfterBoard.getGroup 0 1).2.1.length = 1 :=
  (c3_atari_lists atariAfterBoard 1 1 1).1 (0, 1) |>.mp (by decide)

/-- Counterexample to C3 as stated: on the fifth move of `atariMoves`
(Black `(1,1)` on a 3×3 board) the report's `atari` list is
`[(0,1), (1,0)]`, two entries denoting the *same* white group (their
groups have the same stones), so a distinct group is not reported at
most once; and the `atari_threats` list `[(2,1), (1,2)]` is non-empty
although every adjacent opposing group has exactly one liberty, not two
— the entries are the liberties of Black's own two-liberty stone. -/
theorem c3_counterexample :
    ((GameAnalyzer.analyze 3 atariMoves).getD 4 {}).atari = [(0, 1), (1, 0)] ∧
    GameAnalyzer.sameStones (atariAfterBoard.getGroup 0 1).1
      (atariAfterBoard.getGroup 1 0).1 = true ∧
    ((GameAnalyzer.analyze 3 atariMoves).getD 4 {}).atariThreats = [(2, 1), (1, 2)] ∧
    ((atariAfterBoard.getNeighbors 1 1).filter fun c =>
        atariAfterBoard.board c.2 c.1 == 2).all
      (fun c => (atariAfterBoard.getGroup c.1 c.2).2.1.length == 1) = true := by decide

/-! ### Shape labels at distance 2.0 and 3.0 (claim C8) -/

theorem isSmallNight_eq_19 (b : GoBoard) (x y p d : Nat)
    (hd : (GameAnalyzer.distanceToNearestStonesSq b x y p).1 = some d) :
    GameAnalyzer.isSmallNight 19 b x y p =
      (if d ≠ 0 ∧ d < 7 then some "Small Knight" else none) := by
  rw [GameAnalyzer.isSmallNight, if_neg (by decide), hd]

theorem isOneSpaceJump_eq_19 (b : GoBoard) (x y p d : Nat)
    (hd : (GameAnalyzer.distanceToNearestStonesSq b x y p).1 = some d) :
    GameAnalyzer.isOneSpaceJump 19 b x y p =
      (if d ≠ 0 ∧ d = 4 then some "One space jump" else none) := by
  rw [GameAnalyzer.isOneSpaceJump, if_neg (by decide), hd]

theorem isTwoSpaceJump_eq_19 (b : GoBoard) (x y p d : Nat)
    (hd : (GameAnalyzer.distanceToNearestStonesSq b x y p).1 = some d) :
    GameAnalyzer.isTwoSpaceJump 19 b x y p =
      (if d ≠ 0 ∧ d = 9 then some "Two space jump" else none) := by
  rw [GameAnalyzer.isTwoSpaceJump, if_neg (by decide), hd]

theorem isCornerEnclosure_not_corner {n : Nat} (b : GoBoard) {x y : Nat} (p : Nat)
    (hc : GameAnalyzer.isCornerPlay n x y = false) :
    GameAnalyzer.isCornerEnclosure n b x y p = none := by
  rw [GameAnalyzer.isCornerEnclosure]
  by_cases hn : n ≠ 19
  · rw [if_pos hn]
  · rw [if_neg hn, if_neg (by simp [hc])]

/-- Under failing priority-one conditions, failing opening conditions
and no corner enclosure, `classify_move` reduces to the shape chain. -/
theorem classify_shape_chain (n : Nat) (b : GoBoard) (x y i : Nat)
    (rep : GameAnalyzer.Report) (p : Nat)
    (h0 : rep.capturedCount = 0) (h1 : rep.atari = []) (h2 : rep.isCut = false)
    (h3 : rep.isConnection = false) (h4 : rep.atariThreats = []) (h5 : rep.isContact = false)
    (ho1 : ¬(n = 19 ∧ i < 20 ∧ (x, y) ∈ GameAnalyzer.starPoints))
    (ho2 : ¬(n = 19 ∧ i < 20 ∧ (x, y) ∈ GameAnalyzer.threeThreePoints))
    (ho3 : ¬(n = 19 ∧ i < 20 ∧ (x, y) ∈ GameAnalyzer.threeFourPoints))
    (ho4 : ¬(n = 19 ∧ i < 20 ∧ i = 0))
    (hce : GameAnalyzer.isCornerEnclosure n b x y p = none) :
    (GameAnalyzer.classifyMove n b x y i rep p).1 =
      (if rep.isSmallNight.isSome then "Small Knight"
       else if rep.isOneSpaceJump.isSome then "One-Space Jump"
       else if rep.isTwoSpaceJump.isSome then "Two-Space Jump"
       else if rep.isCornerPlay then "Corner Play"
       else "Normal Move") := by
  unfold GameAnalyzer.classifyMove
  rw [if_neg (by omega), if_neg (by simp [h1]), if_neg (by simp [h2]),
    if_neg (by simp [h3]), if_neg (by simp [h4]), if_neg (by simp [h5]),
    if_neg ho1, if_neg ho2, if_neg ho3, if_neg ho4, hce]
  split_ifs <;> rfl

theorem osj_isSome_smallNight (n : Nat) (b : GoBoard) (x y p : Nat) :
    (GameAnalyzer.isOneSpaceJump n b x y p).isSome = true →
      (GameAnalyzer.isSmallNight n b x y p).isSome = true := by
  rw [GameAnalyzer.isOneSpaceJump, GameAnalyzer.isSmallNight]
  by_cases hn : n ≠ 19
  · rw [if_pos hn, if_pos hn]
    simp
  · rw [if_neg hn, if_neg hn]
    rcases hd : (GameAnalyzer.distanceToNearestStonesSq b x y p).1 with _ | d
    · simp
    · intro h
      have h' : (if d ≠ 0 ∧ d = 4 then (some "One space jump" : Option String)
          else none).isSome = true := h
      by_cases hc : d ≠ 0 ∧ d = 4
      · show (if d ≠ 0 ∧ d < 7 then (some "Small Knight" : Option String)
          else none).isSome = true
        rw [if_pos ⟨hc.1, by omega⟩]
        rfl
      · rw [if_neg hc] at h'
        exact absurd h' (by decide)

/-- No report of the analysis pipeline is ever typed `One-Space Jump`:
any distance that satisfies the one-space-jump test (squared distance 4,
i.e. 2.0) already satisfies the small-knight test (distance < 2.5),
which `classify_move` checks first. -/
theorem analyze_no_one_space_jump (n : Nat) :
    ∀ (moves : List GameAnalyzer.Move) (b : GoBoard) (pB pW : Option Cell) (i : Nat),
      ∀ rep ∈ GameAnalyzer.analyzeFrom n b pB pW i moves, rep.type ≠ "One-Space Jump"
  | [], _, _, _, _ => by
    intro rep hrep
    exact absurd hrep (List.not_mem_nil rep)
  | mv :: rest, b, pB, pW, i => by
    intro rep hrep
    rcases List.mem_cons.1 hrep with rfl | hrest
    · rcases hmx : mv.x with _ | xv
      · rw [(analyzeMoveStep_pass n b pB pW i mv (Or.inl hmx)).1]
        decide
      rcases hmy : mv.y with _ | yv
      · rw [(analyzeMoveStep_pass n b pB pW i mv (Or.inr hmy)).1]
        decide
      · have hstep : GameAnalyzer.analyzeMoveStep n b pB pW i mv =
            GameAnalyzer.placeStep n b pB pW i mv.player xv yv := by
          rw [GameAnalyzer.analyzeMoveStep, hmx, hmy]
        rw [hstep]
        intro h
        have hty : (GameAnalyzer.placeStep n b pB pW i mv.player xv yv).1.type =
            (GameAnalyzer.classifyMove n
              (b.playMove xv yv (GameAnalyzer.playerNum mv.player)).1 xv yv i
              (GameAnalyzer.placeRep n b pB pW i mv.player xv yv)
              (GameAnalyzer.playerNum mv.player)).1 := rfl
        have hc := classify_label_cases n
          (b.playMove xv yv (GameAnalyzer.playerNum mv.player)).1 xv yv i
          (GameAnalyzer.placeRep n b pB pW i mv.player xv yv)
          (GameAnalyzer.playerNum mv.player) _ (hty.symm.trans h)
        simp at hc
        have hsn : GameAnalyzer.isSmallNight n
            (b.playMove xv yv (GameAnalyzer.playerNum mv.player)).1 xv yv
            (GameAnalyzer.playerNum mv.player) = none := hc.2.1
        have hoj : (GameAnalyzer.isOneSpaceJump n
            (b.playMove xv yv (GameAnalyzer.playerNum mv.player)).1 xv yv
            (GameAnalyzer.playerNum mv.player)).isSome = true := hc.2.2
        have := osj_isSome_smallNight n _ xv yv _ hoj
        rw [hsn] at this
        exact absurd this (by decide)
    · exact analyze_no_one_space_jump n rest _ _ _ _ rep hrest

/-- Claim C8 (amended): on a 19×19 board, when none of the higher
priority rules fires (no capture/atari/cut/connection/threat/contact,
no opening point in the index window, and the move is outside the
corner windows so no enclosure fires), a move whose distance to the
nearest other friendly stone is exactly 2.0 (squared distance 4) is
classified `Small Knight` — the small-knight test `distance < 2.5` is
checked before the one-space-jump test, which is therefore unreachable —
and a move at distance exactly 3.0 (squared distance 9) is classified
`Two-Space Jump`; moreover no move of any game is ever labelled
`One-Space Jump`. -/
theorem c8_shape_labels (b : GoBoard) (pB pW : Option Cell) (i : Nat)
    (pl : GameAnalyzer.Player) (x y : Nat)
    (hprio : (GameAnalyzer.placeRep 19 b pB pW i pl x y).capturedCount = 0 ∧
      (GameAnalyzer.placeRep 19 b pB pW i pl x y).atari = [] ∧
      (GameAnalyzer.placeRep 19 b pB pW i pl x y).isCut = false ∧
      (GameAnalyzer.placeRep 19 b pB pW i pl x y).isConnection = false ∧
      (GameAnalyzer.placeRep 19 b pB pW i pl x y).atariThreats = [] ∧
      (GameAnalyzer.placeRep 19 b pB pW i pl x y).isContact = false)
    (hopen : i < 20 → ((x, y) ∉ GameAnalyzer.starPoints ∧
      (x, y) ∉ GameAnalyzer.threeThreePoints ∧
      (x, y) ∉ GameAnalyzer.threeFourPoints ∧ i ≠ 0))
    (hcp : GameAnalyzer.isCornerPlay 19 x y = false) :
    ((GameAnalyzer.placeRep 19 b pB pW i pl x y).distFriendlySq = some 4 →
      (GameAnalyzer.placeStep 19 b pB pW i pl x y).1.type = "Small Knight") ∧
    ((GameAnalyzer.placeRep 19 b pB pW i pl x y).distFriendlySq = some 9 →
      (GameAnalyzer.placeStep 19 b pB pW i pl x y).1.type = "Two-Space Jump") := by
  obtain ⟨h0, h1, h2, h3, h4, h5⟩ := hprio
  have ho1 : ¬(19 = 19 ∧ i < 20 ∧ (x, y) ∈ GameAnalyzer.starPoints) := by
    rintro ⟨-, hi, hmem⟩
    exact (hopen hi).1 hmem
  have ho2 : ¬(19 = 19 ∧ i < 20 ∧ (x, y) ∈ GameAnalyzer.threeThreePoints) := by
    rintro ⟨-, hi, hmem⟩
    exact (hopen hi).2.1 hmem
  have ho3 : ¬(19 = 19 ∧ i < 20 ∧ (x, y) ∈ GameAnalyzer.threeFourPoints) := by
    rintro ⟨-, hi, hmem⟩
    exact (hopen hi).2.2.1 hmem
  have ho4 : ¬(19 = 19 ∧ i < 20 ∧ i = 0) := by
    rintro ⟨-, hi, hz⟩
    exact (hopen hi).2.2.2 hz
  have hce := isCornerEnclosure_not_corner
    (b.playMove x y (GameAnalyzer.playerNum pl)).1 (GameAnalyzer.playerNum pl) hcp
  have hty : (GameAnalyzer.placeStep 19 b pB pW i pl x y).1.type =
      (GameAnalyzer.classifyMove 19 (b.playMove x y (GameAnalyzer.playerNum pl)).1 x y i
        (GameAnalyzer.placeRep 19 b pB pW i pl x y) (GameAnalyzer.playerNum pl)).1 := rfl
  have hchain := classify_shape_chain 19 (b.playMove x y (GameAnalyzer.playerNum pl)).1 x y i
    (GameAnalyzer.placeRep 19 b pB pW i pl x y) (GameAnalyzer.playerNum pl)
    h0 h1 h2 h3 h4 h5 ho1 ho2 ho3 ho4 hce
  constructor
  · intro hd
    have hd' : (GameAnalyzer.distanceToNearestStonesSq
        (b.playMove x y (GameAnalyzer.playerNum pl)).1 x y
        (GameAnalyzer.playerNum pl)).1 = some 4 := hd
    have hsn : (GameAnalyzer.placeRep 19 b pB pW i pl x y).isSmallNight =
        some "Small Knight" := by
      show GameAnalyzer.isSmallNight 19 (b.playMove x y (GameAnalyzer.playerNum pl)).1 x y
        (GameAnalyzer.playerNum pl) = some "Small Knight"
      rw [isSmallNight_eq_19 _ _ _ _ 4 hd', if_pos (by omega)]
    rw [hty, hchain, hsn]
    rfl
  · intro hd
    have hd' : (GameAnalyzer.distanceToNearestStonesSq
        (b.playMove x y (GameAnalyzer.playerNum pl)).1 x y
        (GameAnalyzer.playerNum pl)).1 = some 9 := hd
    have hsn : (GameAnalyzer.placeRep 19 b pB pW i pl x y).isSmallNight = none := by
      show GameAnalyzer.isSmallNight 19 (b.playMove x y (GameAnalyzer.playerNum pl)).1 x y
        (GameAnalyzer.playerNum pl) = none
      rw [isSmallNight_eq_19 _ _ _ _ 9 hd', if_neg (by omega)]
    have hoj : (GameAnalyzer.placeRep 19 b pB pW i pl x y).isOneSpaceJump = none := by
      show GameAnalyzer.isOneSpaceJump 19 (b.playMove x y (GameAnalyzer.playerNum pl)).1 x y
        (GameAnalyzer.playerNum pl) = none
      rw [isOneSpaceJump_eq_19 _ _ _ _ 9 hd', if_neg (by omega)]
    have htj : (GameAnalyzer.placeRep 19 b pB pW i pl x y).isTwoSpaceJump =
        some "Two space jump" := by
      show GameAnalyzer.isTwoSpaceJump 19 (b.playMove x y (GameAnalyzer.playerNum pl)).1 x y
        (GameAnalyzer.playerNum pl) = some "Two space jump"
      rw [isTwoSpaceJump_eq_19 _ _ _ _ 9 hd', if_pos (by omega)]
    rw [hty, hchain, hsn, hoj, htj]
    rfl

set_option maxRecDepth 8000 in
/-- Witness for C8: Black plays `(9,11)` with a lone friendly stone at
`(9,9)` (distance exactly 2.0), far from all corners and special
points; applying the amended theorem yields the `Small Knight` label. -/
theorem c8_shape_labels_witness :
    (GameAnalyzer.placeStep 19 jumpBoard (some (9, 9)) none 25 .B 9 11).1.type =
      "Small Knight" :=
  (c8_shape_labels jumpBoard (some (9, 9)) none 25 .B 9 11 (by decide)
    (fun h => absurd h (by decide)) (by decide)).1 (by decide)

set_option maxRecDepth 8000 in
/-- Counterexample to C8 as stated: in a 19×19 game where Black plays
`(9,9)` and then `(9,11)` (Euclidean distance exactly 2.0 to the
nearest friendly stone, no capture, no atari, no cut, no connection, no
threat, no contact, no opening point in range), the second move is
classified `Small Knight`, not `One-Space Jump`: the `distance < 2.5`
small-knight test subsumes `distance == 2.0` and is checked first. -/
theorem c8_counterexample :
    ((GameAnalyzer.analyze 19 [{ player := .B, x := some 9, y := some 9 },
        { player := .B, x := some 9, y := some 11 }]).getD 1 {}).distFriendlySq = some 4 ∧
    ((GameAnalyzer.analyze 19 [{ player := .B, x := some 9, y := some 9 },
        { player := .B, x := some 9, y := some 11 }]).getD 1 {}).capturedCount = 0 ∧
    ((GameAnalyzer.analyze 19 [{ player := .B, x := some 9, y := some 9 },
        { player := .B, x := some 9, y := some 11 }]).getD 1 {}).atari = [] ∧
    ((GameAnalyzer.analyze 19 [{ player := .B, x := some 9, y := some 9 },
        { player := .B, x := some 9, y := some 11 }]).getD 1 {}).isContact = false ∧
    ((GameAnalyzer.analyze 19 [{ player := .B, x := some 9, y := some 9 },
        { player := .B, x := some 9, y := some 11 }]).getD 1 {}).type = "Small Knight" ∧
    ((GameAnalyzer.analyze 19 [{ player := .B, x := some 9, y := some 9 },
        { player := .B, x := some 9, y := some 11 }]).getD 1 {}).type ≠ "One-Space Jump" := by
  decide

/-! ### C7: the cut detector -/

theorem mem_addLiberty_fold (b : GoBoard) :
    ∀ (ns ls : List Cell) (c : Cell),
      c ∈ ns.foldl b.addLiberty ls ↔ c ∈ ls ∨ (b.board c.2 c.1 = 0 ∧ c ∈ ns)
  | [], ls, c => by simp
  | e :: ns, ls, c => by
    rw [List.foldl_cons, mem_addLiberty_fold b ns, GoBoard.addLiberty]
    by_cases h : b.board e.2 e.1 = 0 ∧ e ∉ ls
    · rw [if_pos h]
      simp only [List.mem_append, List.mem_singleton, List.mem_cons]
      constructor
      · rintro ((hl | rfl | hnil) | ⟨h0, hm⟩)
        · exact Or.inl hl
        · exact Or.inr ⟨h.1, Or.inl rfl⟩
        · exact absurd hnil (List.not_mem_nil _)
        · exact Or.inr ⟨h0, Or.inr hm⟩
      · rintro (hl | ⟨h0, rfl | hm⟩)
        · exact Or.inl (Or.inl hl)
        · exact Or.inl (Or.inr (Or.inl rfl))
        · exact Or.inr ⟨h0, hm⟩
    · rw [if_neg h]
      simp only [List.mem_cons]
      constructor
      · rintro (hl | ⟨h0, hm⟩)
        · exact Or.inl hl
        · exact Or.inr ⟨h0, Or.inr hm⟩
      · rintro (hl | ⟨h0, rfl | hm⟩)
        · exact Or.inl hl
        · refine Or.inl ?_
          by_contra hh
          exact h ⟨h0, hh⟩
        · exact Or.inr ⟨h0, hm⟩

theorem mem_libsFold (b : GoBoard) :
    ∀ (stones ls : List Cell) (c : Cell),
      c ∈ stones.foldl (fun a s => (b.getNeighbors s.1 s.2).foldl b.addLiberty a) ls ↔
        c ∈ ls ∨ (b.board c.2 c.1 = 0 ∧ ∃ s ∈ stones, c ∈ b.getNeighbors s.1 s.2)
  | [], ls, c => by simp
  | s0 :: stones, ls, c => by
    rw [List.foldl_cons, mem_libsFold b stones, mem_addLiberty_fold b]
    simp only [List.mem_cons]
    constructor
    · rintro ((hl | ⟨h0, hm⟩) | ⟨h0, s, hs, hm⟩)
      · exact Or.inl hl
      · exact Or.inr ⟨h0, s0, Or.inl rfl, hm⟩
      · exact Or.inr ⟨h0, s, Or.inr hs, hm⟩
    · rintro (hl | ⟨h0, s, rfl | hs, hm⟩)
      · exact Or.inl (Or.inl hl)
      · exact Or.inl (Or.inr ⟨h0, hm⟩)
      · exact Or.inr ⟨h0, s, hs, hm⟩

/-- Membership in `get_liberties_for_stones`: exactly the empty cells
adjacent to some stone of the collection. -/
theorem mem_getLibertiesForStones {b : GoBoard} {stones : List Cell} {c : Cell} :
    c ∈ b.getLibertiesForStones stones ↔
      b.board c.2 c.1 = 0 ∧ ∃ s ∈ stones, c ∈ b.getNeighbors s.1 s.2 := by
  rw [GoBoard.getLibertiesForStones, mem_libsFold b]
  simp

theorem getLibertiesForStones_congr {b : GoBoard} {g h : List Cell}
    (hgh : ∀ c : Cell, c ∈ g ↔ c ∈ h) (c : Cell) :
    c ∈ b.getLibertiesForStones g ↔ c ∈ b.getLibertiesForStones h := by
  rw [mem_getLibertiesForStones, mem_getLibertiesForStones]
  constructor
  · rintro ⟨h0, s, hs, hm⟩
    exact ⟨h0, s, (hgh s).1 hs, hm⟩
  · rintro ⟨h0, s, hs, hm⟩
    exact ⟨h0, s, (hgh s).2 hs, hm⟩

/-- `frozenset` equality of two stone lists is membership equality. -/
theorem sameStones_iff {g h : List Cell} :
    GameAnalyzer.sameStones g h = true ↔ ∀ c : Cell, c ∈ g ↔ c ∈ h := by
  rw [GameAnalyzer.sameStones, Bool.and_eq_true, List.all_eq_true, List.all_eq_true]
  constructor
  · rintro ⟨h1, h2⟩ c
    constructor
    · intro hc
      simpa using h1 c hc
    · intro hc
      simpa using h2 c hc
  · intro hiff
    constructor
    · intro c hc
      simpa using (hiff c).1 hc
    · intro c hc
      simpa using (hiff c).2 hc

theorem sameStones_refl (g : List Cell) : GameAnalyzer.sameStones g g = true :=
  sameStones_iff.2 fun _ => Iff.rfl

/-- `get_group` restricted to its stones component, under the guard that
the queried cell holds a nonzero colour. -/
theorem mem_getGroup_iff {tb : GoBoard} {nx ny q : Nat} {c : Cell}
    (hnx : nx < tb.size) (hny : ny < tb.size) (hcol : tb.board ny nx = q) (hq : q ≠ 0) :
    c ∈ (tb.getGroup nx ny).1 ↔ Reach tb q (nx, ny) c := by
  have h1 : (tb.getGroup nx ny).1 = (tb.getGroupAndLiberties nx ny q).1 := by
    rw [GoBoard.getGroup]
    simp only [hcol]
    rw [if_neg hq]
  rw [h1]
  exact mem_group_iff hnx hny hcol hq

/-- Two adjacent enemy stones head equal group frozensets exactly when
they are connected on the board. -/
theorem sameStones_groups_iff {tb : GoBoard} {n1 n2 : Cell} {q : Nat}
    (h1b : n1.1 < tb.size ∧ n1.2 < tb.size) (h2b : n2.1 < tb.size ∧ n2.2 < tb.size)
    (h1c : tb.board n1.2 n1.1 = q) (h2c : tb.board n2.2 n2.1 = q) (hq : q ≠ 0) :
    GameAnalyzer.sameStones (tb.getGroup n1.1 n1.2).1 (tb.getGroup n2.1 n2.2).1 = true ↔
      Reach tb q n1 n2 := by
  constructor
  · intro hs
    have hn2 : n2 ∈ (tb.getGroup n2.1 n2.2).1 :=
      (mem_getGroup_iff h2b.1 h2b.2 h2c hq).2 Reach.base
    have hn2' : n2 ∈ (tb.getGroup n1.1 n1.2).1 := (sameStones_iff.1 hs n2).2 hn2
    exact (mem_getGroup_iff h1b.1 h1b.2 h1c hq).1 hn2'
  · intro hR
    apply sameStones_iff.2
    intro c
    rw [mem_getGroup_iff h1b.1 h1b.2 h1c hq, mem_getGroup_iff h2b.1 h2b.2 h2c hq]
    constructor
    · intro h
      exact (hR.symm h1b h1c).trans h
    · intro h
      exact hR.trans h

/-- A common liberty point of two adjacent enemy groups, expressed as
joint membership in the two computed liberty lists. -/
theorem commonLibPoint_iff_libs {tb : GoBoard} {n1 n2 e : Cell} {q : Nat}
    (h1b : n1.1 < tb.size ∧ n1.2 < tb.size) (h2b : n2.1 < tb.size ∧ n2.2 < tb.size)
    (h1c : tb.board n1.2 n1.1 = q) (h2c : tb.board n2.2 n2.1 = q) (hq : q ≠ 0) :
    commonLibPoint tb q n1 n2 e ↔
      (e ∈ tb.getLibertiesForStones (tb.getGroup n1.1 n1.2).1 ∧
       e ∈ tb.getLibertiesForStones (tb.getGroup n2.1 n2.2).1) := by
  unfold commonLibPoint
  constructor
  · rintro ⟨h0, ⟨d1, hr1, hm1⟩, ⟨d2, hr2, hm2⟩⟩
    exact ⟨mem_getLibertiesForStones.2
        ⟨h0, d1, (mem_getGroup_iff h1b.1 h1b.2 h1c hq).2 hr1, hm1⟩,
      mem_getLibertiesForStones.2
        ⟨h0, d2, (mem_getGroup_iff h2b.1 h2b.2 h2c hq).2 hr2, hm2⟩⟩
  · rintro ⟨hl1, hl2⟩
    obtain ⟨h0, d1, hd1, hm1⟩ := mem_getLibertiesForStones.1 hl1
    obtain ⟨-, d2, hd2, hm2⟩ := mem_getLibertiesForStones.1 hl2
    exact ⟨h0, ⟨d1, (mem_getGroup_iff h1b.1 h1b.2 h1c hq).1 hd1, hm1⟩,
      ⟨d2, (mem_getGroup_iff h2b.1 h2b.2 h2c hq).1 hd2, hm2⟩⟩

/-- One `neighboring_enemy_groups.add(frozenset(stones))` step. -/
theorem insertGroup_spec (gs : List (List Cell)) (g : List Cell)
    (hp : List.Pairwise (fun a h => GameAnalyzer.sameStones a h = false) gs) :
    List.Pairwise (fun a h => GameAnalyzer.sameStones a h = false)
        (GameAnalyzer.insertGroup gs g) ∧
      (∀ a ∈ GameAnalyzer.insertGroup gs g, a ∈ gs ∨ a = g) ∧
      (∃ a ∈ GameAnalyzer.insertGroup gs g, GameAnalyzer.sameStones a g = true) ∧
      (∀ a ∈ gs, a ∈ GameAnalyzer.insertGroup gs g) := by
  rw [GameAnalyzer.insertGroup]
  by_cases h : gs.any (fun h2 => GameAnalyzer.sameStones h2 g) = true
  · rw [if_pos h]
    obtain ⟨a, ha, hsame⟩ := List.any_eq_true.1 h
    exact ⟨hp, fun a ha => Or.inl ha, ⟨a, ha, hsame⟩, fun a ha => ha⟩
  · rw [if_neg h]
    have hall : ∀ a ∈ gs, GameAnalyzer.sameStones a g = false := by
      intro a ha
      have h' : gs.any (fun h2 => GameAnalyzer.sameStones h2 g) = false :=
        Bool.eq_false_iff.2 h
      have := List.any_eq_false.1 h' a ha
      exact Bool.eq_false_iff.2 this
    refine ⟨?_, ?_, ?_, ?_⟩
    · rw [List.pairwise_append]
      refine ⟨hp, by simp, ?_⟩
      intro a ha a' ha'
      rw [List.mem_singleton] at ha'
      subst ha'
      exact hall a ha
    · intro a ha
      rcases List.mem_append.1 ha with h1 | h1
      · exact Or.inl h1
      · rw [List.mem_singleton] at h1
        exact Or.inr h1
    · exact ⟨g, List.mem_append.2 (Or.inr (List.mem_singleton.2 rfl)), sameStones_refl g⟩
    · intro a ha
      exact List.mem_append.2 (Or.inl ha)

/-- The `neighboring_enemy_groups` collection loop of `is_cut_move`:
the accumulated list is pairwise frozenset-distinct, sound (every entry
is the group of some qualifying neighbour), complete (every qualifying
neighbour has a frozenset-equal entry), and monotone in the seed. -/
theorem cutFold_spec (before : GoBoard) (n p : Nat) :
    ∀ (ns : List Cell) (gs : List (List Cell)),
      List.Pairwise (fun g h => GameAnalyzer.sameStones g h = false) gs →
      List.Pairwise (fun g h => GameAnalyzer.sameStones g h = false)
        (ns.foldl (fun gs c => if before.board c.2 c.1 = p
          then GameAnalyzer.insertGroup gs (((⟨n, before.board⟩ : GoBoard).getGroup c.1 c.2).1)
          else gs) gs) ∧
      (∀ g ∈ ns.foldl (fun gs c => if before.board c.2 c.1 = p
          then GameAnalyzer.insertGroup gs (((⟨n, before.board⟩ : GoBoard).getGroup c.1 c.2).1)
          else gs) gs,
        g ∈ gs ∨ ∃ nbr ∈ ns, before.board nbr.2 nbr.1 = p ∧
          g = ((⟨n, before.board⟩ : GoBoard).getGroup nbr.1 nbr.2).1) ∧
      (∀ nbr ∈ ns, before.board nbr.2 nbr.1 = p →
        ∃ g ∈ ns.foldl (fun gs c => if before.board c.2 c.1 = p
            then GameAnalyzer.insertGroup gs (((⟨n, before.board⟩ : GoBoard).getGroup c.1 c.2).1)
            else gs) gs,
          GameAnalyzer.sameStones g (((⟨n, before.board⟩ : GoBoard).getGroup nbr.1 nbr.2).1)
            = true) ∧
      (∀ g ∈ gs, g ∈ ns.foldl (fun gs c => if before.board c.2 c.1 = p
          then GameAnalyzer.insertGroup gs (((⟨n, before.board⟩ : GoBoard).getGroup c.1 c.2).1)
          else gs) gs)
  | [], gs, hp => by
    refine ⟨hp, ?_, ?_, ?_⟩
    · intro g hg
      exact Or.inl hg
    · intro nbr hnbr
      exact absurd hnbr (List.not_mem_nil _)
    · intro g hg
      exact hg
  | c :: ns, gs, hp => by
    have hfc : ∀ a : List (List Cell),
        (c :: ns).foldl (fun gs c => if before.board c.2 c.1 = p
          then GameAnalyzer.insertGroup gs (((⟨n, before.board⟩ : GoBoard).getGroup c.1 c.2).1)
          else gs) a =
        ns.foldl (fun gs c => if before.board c.2 c.1 = p
          then GameAnalyzer.insertGroup gs (((⟨n, before.board⟩ : GoBoard).getGroup c.1 c.2).1)
          else gs)
          (if before.board c.2 c.1 = p
          then GameAnalyzer.insertGroup a (((⟨n, before.board⟩ : GoBoard).getGroup c.1 c.2).1)
          else a) := fun a => rfl
    rw [hfc]
    by_cases hc : before.board c.2 c.1 = p
    · rw [if_pos hc]
      obtain ⟨i1, i2, i3, i4⟩ :=
        insertGroup_spec gs (((⟨n, before.board⟩ : GoBoard).getGroup c.1 c.2).1) hp
      obtain ⟨r1, r2, r3, r4⟩ := cutFold_spec before n p ns
        (GameAnalyzer.insertGroup gs (((⟨n, before.board⟩ : GoBoard).getGroup c.1 c.2).1)) i1
      refine ⟨r1, ?_, ?_, ?_⟩
      · intro g hg
        rcases r2 g hg with hin | ⟨nbr, hn, hcn, hgn⟩
        · rcases i2 g hin with h1 | h1
          · exact Or.inl h1
          · exact Or.inr ⟨c, List.mem_cons_self c ns, hc, h1⟩
        · exact Or.inr ⟨nbr, List.mem_cons_of_mem c hn, hcn, hgn⟩
      · intro nbr hn hcn
        rcases List.mem_cons.1 hn with rfl | hn'
        · obtain ⟨a, ha, hsame⟩ := i3
          exact ⟨a, r4 a ha, hsame⟩
        · exact r3 nbr hn' hcn
      · intro g hg
        exact r4 g (i4 g hg)
    · rw [if_neg hc]
      obtain ⟨r1, r2, r3, r4⟩ := cutFold_spec before n p ns gs hp
      refine ⟨r1, ?_, ?_, r4⟩
      · intro g hg
        rcases r2 g hg with h1 | ⟨nbr, hn, hcn, hgn⟩
        · exact Or.inl h1
        · exact Or.inr ⟨nbr, List.mem_cons_of_mem c hn, hcn, hgn⟩
      · intro nbr hn hcn
        rcases List.mem_cons.1 hn with rfl | hn'
        · exact absurd hcn hc
        · exact r3 nbr hn' hcn

theorem allPairs_pairwise {α : Type} {R : α → α → Prop} :
    ∀ (l : List α), l.Pairwise R → ∀ pr ∈ GameAnalyzer.allPairs l,
      pr.1 ∈ l ∧ pr.2 ∈ l ∧ R pr.1 pr.2
  | [], _, pr, hpr => absurd hpr (List.not_mem_nil _)
  | a :: l, hp, pr, hpr => by
    simp only [GameAnalyzer.allPairs] at hpr
    rcases List.mem_append.1 hpr with h1 | h1
    · obtain ⟨cc, hcc, rfl⟩ := List.mem_map.1 h1
      exact ⟨List.mem_cons_self a l, List.mem_cons_of_mem a hcc,
        (List.pairwise_cons.1 hp).1 cc hcc⟩
    · obtain ⟨m1, m2, m3⟩ := allPairs_pairwise l (List.pairwise_cons.1 hp).2 pr h1
      exact ⟨List.mem_cons_of_mem a m1, List.mem_cons_of_mem a m2, m3⟩

theorem allPairs_complete {α : Type} :
    ∀ (l : List α) (a b : α), a ∈ l → b ∈ l → a ≠ b →
      (a, b) ∈ GameAnalyzer.allPairs l ∨ (b, a) ∈ GameAnalyzer.allPairs l
  | [], a, _, ha, _, _ => absurd ha (List.not_mem_nil _)
  | c :: l, a, b, ha, hb, hne => by
    simp only [GameAnalyzer.allPairs]
    rcases List.mem_cons.1 ha with rfl | ha'
    · rcases List.mem_cons.1 hb with rfl | hb'
      · exact absurd rfl hne
      · exact Or.inl (List.mem_append.2 (Or.inl (List.mem_map.2 ⟨b, hb', rfl⟩)))
    · rcases List.mem_cons.1 hb with rfl | hb'
      · exact Or.inr (List.mem_append.2 (Or.inl (List.mem_map.2 ⟨a, ha', rfl⟩)))
      · rcases allPairs_complete l a b ha' hb' hne with h | h
        · exact Or.inl (List.mem_append.2 (Or.inr h))
        · exact Or.inr (List.mem_append.2 (Or.inr h))

theorem two_le_length_of_mem {α : Type} {l : List α} {a b : α}
    (ha : a ∈ l) (hb : b ∈ l) (hne : a ≠ b) : 2 ≤ l.length := by
  rcases l with _ | ⟨x, _ | ⟨z, t⟩⟩
  · exact absurd ha (List.not_mem_nil _)
  · rw [List.mem_singleton] at ha hb
    exact absurd (ha.trans hb.symm) hne
  · simp only [List.length_cons]
    omega

/-- The Boolean tested for one pair of groups inside `is_cut_move`:
their common liberties are exactly the singleton of the move point. -/
theorem cutPairCond_iff {tb : GoBoard} {g1 g2 : List Cell} {x y : Nat} :
    (((tb.getLibertiesForStones g1).filter (tb.getLibertiesForStones g2).contains).contains
        (x, y) &&
      ((tb.getLibertiesForStones g1).filter (tb.getLibertiesForStones g2).contains).all
        (fun c => c == (x, y))) = true ↔
      (((x, y) ∈ tb.getLibertiesForStones g1 ∧ (x, y) ∈ tb.getLibertiesForStones g2) ∧
       ∀ c : Cell, c ∈ tb.getLibertiesForStones g1 → c ∈ tb.getLibertiesForStones g2 →
         c = (x, y)) := by
  rw [Bool.and_eq_true, List.all_eq_true]
  constructor
  · rintro ⟨h1, h2⟩
    have hm : (x, y) ∈ (tb.getLibertiesForStones g1).filter
        (tb.getLibertiesForStones g2).contains := by simpa using h1
    have hm' := List.mem_filter.1 hm
    refine ⟨⟨hm'.1, by simpa using hm'.2⟩, ?_⟩
    intro c hc1 hc2
    have hcf : c ∈ (tb.getLibertiesForStones g1).filter
        (tb.getLibertiesForStones g2).contains :=
      List.mem_filter.2 ⟨hc1, by simpa using hc2⟩
    simpa using h2 c hcf
  · rintro ⟨⟨hm1, hm2⟩, huniq⟩
    constructor
    · have hcf : (x, y) ∈ (tb.getLibertiesForStones g1).filter
          (tb.getLibertiesForStones g2).contains :=
        List.mem_filter.2 ⟨hm1, by simpa using hm2⟩
      simpa using hcf
    · intro c hc
      have hc' := List.mem_filter.1 hc
      have := huniq c hc'.1 (by simpa using hc'.2)
      simpa using this

/-- C7: `is_cut_move(x, y, player, board_before_move)` returns `True`
if and only if, on the before grid, there exist two opposing-colour
stones orthogonally adjacent to the move point whose groups are
distinct (not connected) and whose liberty sets, computed on the before
grid, intersect in exactly the singleton containing the move point. -/
theorem c7_cut_iff (b : GoBoard) (x y p : Nat) (before : GoBoard)
    (hx : x < b.size) (hy : y < b.size) (hp : p = 1 ∨ p = 2) :
    GameAnalyzer.isCutMove b x y p before = true ↔ cutSpec b x y p before := by
  classical
  have hq : 3 - p ≠ 0 := by
    rcases hp with rfl | rfl <;> decide
  obtain ⟨grps, hgrps⟩ : ∃ gs, gs = (b.getNeighbors x y).foldl
      (fun gs c => if before.board c.2 c.1 = 3 - p
        then GameAnalyzer.insertGroup gs
          (((⟨b.size, before.board⟩ : GoBoard).getGroup c.1 c.2).1)
        else gs) [] := ⟨_, rfl⟩
  obtain ⟨hpair, hsound, hcompl, -⟩ :=
    cutFold_spec before b.size (3 - p) (b.getNeighbors x y) [] List.Pairwise.nil
  rw [← hgrps] at hpair hsound hcompl
  have hcut : GameAnalyzer.isCutMove b x y p before =
      (if grps.length < 2 then false
       else (GameAnalyzer.allPairs grps).any fun gg =>
         (((⟨b.size, before.board⟩ : GoBoard).getLibertiesForStones gg.1).filter
             ((⟨b.size, before.board⟩ : GoBoard).getLibertiesForStones gg.2).contains).contains
           (x, y) &&
         (((⟨b.size, before.board⟩ : GoBoard).getLibertiesForStones gg.1).filter
             ((⟨b.size, before.board⟩ : GoBoard).getLibertiesForStones gg.2).contains).all
           (fun c => c == (x, y))) := by
    rw [hgrps]
    rfl
  have hnb : ∀ c : Cell, c ∈ b.getNeighbors x y → c.1 < b.size ∧ c.2 < b.size :=
    fun c hc => getNeighbors_inBounds hx hy hc
  constructor
  · intro h
    rw [hcut] at h
    by_cases hlen : grps.length < 2
    · rw [if_pos hlen] at h
      exact absurd h (by simp)
    · rw [if_neg hlen] at h
      obtain ⟨pr, hprmem, hprcond⟩ := List.any_eq_true.1 h
      obtain ⟨hpr1, hpr2, hprR⟩ := allPairs_pairwise grps hpair pr hprmem
      rcases hsound pr.1 hpr1 with h0 | ⟨n1, hn1mem, hn1col, hg1⟩
      · exact absurd h0 (List.not_mem_nil _)
      rcases hsound pr.2 hpr2 with h0 | ⟨n2, hn2mem, hn2col, hg2⟩
      · exact absurd h0 (List.not_mem_nil _)
      have h1b := hnb n1 hn1mem
      have h2b := hnb n2 hn2mem
      have hc2 :
          ((((⟨b.size, before.board⟩ : GoBoard).getLibertiesForStones pr.1).filter
              ((⟨b.size, before.board⟩ : GoBoard).getLibertiesForStones pr.2).contains).contains
            (x, y) &&
          (((⟨b.size, before.board⟩ : GoBoard).getLibertiesForStones pr.1).filter
              ((⟨b.size, before.board⟩ : GoBoard).getLibertiesForStones pr.2).contains).all
            (fun c => c == (x, y))) = true := hprcond
      obtain ⟨⟨hm1, hm2⟩, huniq0⟩ := cutPairCond_iff.1 hc2
      rw [hg1] at hm1
      rw [hg2] at hm2
      refine ⟨n1, n2, hn1mem, hn2mem, hn1col, hn2col, ?_, ?_, ?_⟩
      · intro hR
        have hsame : GameAnalyzer.sameStones
            (((⟨b.size, before.board⟩ : GoBoard).getGroup n1.1 n1.2).1)
            (((⟨b.size, before.board⟩ : GoBoard).getGroup n2.1 n2.2).1) = true :=
          (@sameStones_groups_iff ⟨b.size, before.board⟩ n1 n2 (3 - p)
            h1b h2b hn1col hn2col hq).2 hR
        rw [← hg1, ← hg2, hprR] at hsame
        exact Bool.false_ne_true hsame
      · exact (@commonLibPoint_iff_libs ⟨b.size, before.board⟩ n1 n2 (x, y) (3 - p)
          h1b h2b hn1col hn2col hq).2 ⟨hm1, hm2⟩
      · intro e he
        have he' := (@commonLibPoint_iff_libs ⟨b.size, before.board⟩ n1 n2 e (3 - p)
          h1b h2b hn1col hn2col hq).1 he
        rw [← hg1] at he'
        rw [← hg2] at he'
        exact huniq0 e he'.1 he'.2
  · intro h
    obtain ⟨n1, n2, hn1mem, hn2mem, hn1col, hn2col, hnotR, hcl, huniq⟩ := h
    have h1b := hnb n1 hn1mem
    have h2b := hnb n2 hn2mem
    obtain ⟨g1, hg1mem, hg1same⟩ := hcompl n1 hn1mem hn1col
    obtain ⟨g2, hg2mem, hg2same⟩ := hcompl n2 hn2mem hn2col
    have hne : g1 ≠ g2 := by
      intro heq
      apply hnotR
      apply (@sameStones_groups_iff ⟨b.size, before.board⟩ n1 n2 (3 - p)
        h1b h2b hn1col hn2col hq).1
      apply sameStones_iff.2
      intro c
      have e1 := sameStones_iff.1 hg1same c
      have e2 := sameStones_iff.1 hg2same c
      rw [← e1, heq, e2]
    have hlen : ¬ grps.length < 2 := by
      have := two_le_length_of_mem hg1mem hg2mem hne
      omega
    rw [hcut, if_neg hlen]
    apply List.any_eq_true.2
    have hmm := (@commonLibPoint_iff_libs ⟨b.size, before.board⟩ n1 n2 (x, y) (3 - p)
      h1b h2b hn1col hn2col hq).1 hcl
    have t1 : ∀ c : Cell,
        c ∈ (⟨b.size, before.board⟩ : GoBoard).getLibertiesForStones g1 ↔
        c ∈ (⟨b.size, before.board⟩ : GoBoard).getLibertiesForStones
          (((⟨b.size, before.board⟩ : GoBoard).getGroup n1.1 n1.2).1) :=
      fun c => getLibertiesForStones_congr (sameStones_iff.1 hg1same) c
    have t2 : ∀ c : Cell,
        c ∈ (⟨b.size, before.board⟩ : GoBoard).getLibertiesForStones g2 ↔
        c ∈ (⟨b.size, before.board⟩ : GoBoard).getLibertiesForStones
          (((⟨b.size, before.board⟩ : GoBoard).getGroup n2.1 n2.2).1) :=
      fun c => getLibertiesForStones_congr (sameStones_iff.1 hg2same) c
    rcases allPairs_complete grps g1 g2 hg1mem hg2mem hne with hpr | hpr
    · refine ⟨(g1, g2), hpr, ?_⟩
      refine cutPairCond_iff.2 ⟨⟨(t1 _).2 hmm.1, (t2 _).2 hmm.2⟩, ?_⟩
      intro c hc1 hc2
      exact huniq c ((@commonLibPoint_iff_libs ⟨b.size, before.board⟩ n1 n2 c (3 - p)
        h1b h2b hn1col hn2col hq).2 ⟨(t1 c).1 hc1, (t2 c).1 hc2⟩)
    · refine ⟨(g2, g1), hpr, ?_⟩
      refine cutPairCond_iff.2 ⟨⟨(t2 _).2 hmm.2, (t1 _).2 hmm.1⟩, ?_⟩
      intro c hc2 hc1
      exact huniq c ((@commonLibPoint_iff_libs ⟨b.size, before.board⟩ n1 n2 c (3 - p)
        h1b h2b hn1col hn2col hq).2 ⟨(t1 c).1 hc1, (t2 c).1 hc2⟩)

/-- Witness for C7: on the 3×3 before-board with White stones at
`(0,1)` and `(2,1)`, Black playing `(1,1)` is detected as a cut and the
specification holds there. -/
theorem c7_cut_iff_witness :
    GameAnalyzer.isCutMove (cutBeforeBoard.playMove 1 1 1).1 1 1 1 cutBeforeBoard = true ∧
    cutSpec (cutBeforeBoard.playMove 1 1 1).1 1 1 1 cutBeforeBoard :=
  ⟨by decide,
    (c7_cut_iff (cutBeforeBoard.playMove 1 1 1).1 1 1 1 cutBeforeBoard
      (by decide) (by decide) (Or.inl rfl)).1 (by decide)⟩
